import Mathlib

/-!
# Verification of the react-hotkeys key-event matching engine

A shallow embedding of `src/lib/strategies/AbstractKeyEventStrategy.js` and
`src/lib/strategies/FocusOnlyKeyEventStrategy.js`.  JavaScript objects used as
ordered string-keyed dictionaries are modelled as association lists (insertion
order preserved, unique keys maintained by the update operation, exactly as JS
object semantics guarantee).  Handler callbacks are modelled as opaque numeric
identifiers; "invoking a handler" is recorded in the result of each operation.
External collaborators that live outside the two embedded files
(key-name normalisation, alias tables, the keypress-capability predicate and
the global configuration flag) are supplied through an `Env` record, matching
the spec's description of them as external services with stable contracts.
-/

namespace ReactHotKeys

/-- The three kinds of key event.  The source indexes event bitmaps with
`KeyEventBitmapIndex` (keydown = 0, keypress = 1, keyup = 2); we use a plain
inductive instead of raw indices. -/
inductive EventKind where
  | keydown
  | keypress
  | keyup
deriving DecidableEq, Repr

/-- A 3-bit flag set over the event kinds, the `KeyEventBitmap` of the source.
Modelled from the spec: `KeyEventBitmapManager` is repository code that is not
under `src/`; spec section 9 describes it as "a small fixed-size flag set
(3 bits: keydown/keypress/keyup)". -/
structure KeyEventBitmap where
  keydown : Bool := false
  keypress : Bool := false
  keyup : Bool := false
deriving DecidableEq, Repr

namespace KeyEventBitmap

/-- Read one flag (the source writes `bitmap[eventBitmapIndex]`). -/
def get (b : KeyEventBitmap) : EventKind → Bool
  | .keydown => b.keydown
  | .keypress => b.keypress
  | .keyup => b.keyup

/-- Set one flag (the source's `KeyEventBitmapManager.setBit`). -/
def setBit (b : KeyEventBitmap) : EventKind → KeyEventBitmap
  | .keydown => { b with keydown := true }
  | .keypress => { b with keypress := true }
  | .keyup => { b with keyup := true }

end KeyEventBitmap

/-- Modelled from the spec: `KeyEventBitmapManager.newBitmap()` returns an
all-false flag set. -/
def newBitmap : KeyEventBitmap := {}

/-- Modelled from the spec: `KeyEventBitmapManager.newBitmap(index)` returns a
flag set with exactly the given flag raised. -/
def newBitmapWith (e : EventKind) : KeyEventBitmap := newBitmap.setBit e

/-- The per-key pair of bitmaps; the source stores `[previous, current]`
indexed through `KeyEventSequenceIndex` (previous = 0, current = 1). -/
structure KeyState where
  previous : KeyEventBitmap
  current : KeyEventBitmap
deriving DecidableEq, Repr

/-- Lookup in a JS-object-as-dictionary (first entry with the key). -/
def alook {κ α : Type} [BEq κ] (l : List (κ × α)) (k : κ) : Option α :=
  (l.find? (fun p => p.1 == k)).map Prod.snd

/-- JS object update `obj[k] = v`: replace the value in place when the key is
present (keeping its enumeration position), append otherwise. -/
def aset {κ α : Type} [BEq κ] (l : List (κ × α)) (k : κ) (v : α) : List (κ × α) :=
  match l with
  | [] => [(k, v)]
  | p :: rest => if p.1 == k then (k, v) :: rest else p :: aset rest k v

/-- A `KeyCombinationRecord` of the source: the keys considered pressed
together, plus serialized combination ids. -/
structure KeyCombination where
  keys : List (String × KeyState)
  ids : List String
deriving DecidableEq, Repr

/-- Modelled from the spec: `KeyCombinationSerializer.serialize` is repository
code not under `src/`.  Spec section 4.2: it "serializes all keys' canonical
identifiers into `ids`" and section 3 requires `ids` to be non-empty; alias
expansion may produce several ids but is external.  We model one canonical id
per combination: the key names joined with a plus sign, the empty combination
serializing to the single empty id (matching the source's empty-state record
`{ keys: {}, ids: [''] }`). -/
def serializeKeys (keys : List (String × KeyState)) : List String :=
  match keys with
  | [] => [""]
  | _ => [String.intercalate "+" (keys.map Prod.fst)]

/-- A keyboard event as far as the engine reads it. -/
structure KeyEvent where
  key : String
deriving DecidableEq, Repr

/-- The options hash passed with each `handleKey*` call; the engine only reads
the caller-supplied ignore predicate from it. -/
structure Options where
  ignoreEventsCondition : KeyEvent → Bool

/-- External collaborators (spec section 6): key-name normalisation, the four
alias tables, the native-keypress predicate and the
`simulateMissingKeyPressEvents` configuration option.  All are repository code
outside `src/` and are supplied as parameters, faithful to the spec's
treatment of them as boundary inputs. -/
structure Env where
  normalizeKeyName : String → String
  hasKeyPressEvent : String → Bool
  simulateMissingKeyPressEvents : Bool
  resolveAltShiftedAlias : String → List String
  resolveShiftedAlias : String → List String
  resolveAltedAlias : String → List String
  resolveKeyAlias : String → List String

/-- An `ActionConfiguration` (matcher) of the source.  The source field
`prefix` is a Lean keyword, so it is named `pfx` here. -/
structure ActionConfig where
  pfx : String
  actionName : String
  sequenceLength : Nat
  id : String
  keyDictionary : List String
  size : Nat
  eventBitmapIndex : EventKind
deriving DecidableEq, Repr

/-- One registered component's options (`ComponentOptions` in the source);
handler callbacks are opaque numeric identifiers. -/
structure Component where
  actions : List (String × List ActionConfig)
  handlers : List (String × Nat)
  componentId : Nat

instance : Inhabited Component := ⟨⟨[], [], 0⟩⟩

/-- A handler binding stored in a resolved combination (`events[index]`). -/
structure EventEntry where
  actionName : String
  eventBitmapIndex : EventKind
  handler : Nat
deriving DecidableEq, Repr

/-- A resolved combination entry stored under a sequence prefix.  The source
field `prefix` is named `pfx` (Lean keyword). -/
structure Combination where
  pfx : String
  sequenceLength : Nat
  id : String
  keyDictionary : List String
  size : Nat
  events : List (EventKind × EventEntry)
deriving DecidableEq, Repr

/-- A sequence group: the combinations registered under one prefix, plus the
lazily computed priority order (`matchingSequence.order`, absent until the
first match). -/
structure SequenceGroup where
  combinations : List (String × Combination)
  order : Option (List String) := none
deriving DecidableEq, Repr

/-- The per-component resolved key map built lazily by
`_callMatchingHandlerClosestToEventTarget`.  In JS the object starts empty and
gains `sequences`, `eventBitmap` and `longestSequence` on first use; the
defaults model the absent fields. -/
structure KeyMap where
  sequences : List (String × SequenceGroup) := []
  eventBitmap : KeyEventBitmap := {}
  longestSequence : Nat := 0
deriving DecidableEq, Repr

instance : Inhabited KeyMap := ⟨{}⟩

/-- The handler-resolution state of `AbstractKeyEventStrategy`
(`keyMaps`, `unmatchedHandlerStatus`, `searchIndex`, `handlersDictionary`,
`keySequencesDictionary`); `none` models the `null` set by
`_resetHandlerResolutionState`. -/
structure ResolutionState where
  keyMaps : Option (List KeyMap)
  unmatchedHandlerStatus : Option (List (Nat × List String))
  searchIndex : Nat
  handlersDictionary : List (String × List Nat)
  keySequencesDictionary : List (String × List (Nat × EventKind))

/-- `eventPropagationState` of `FocusOnlyKeyEventStrategy`. -/
structure EventPropagationState where
  previousComponentIndex : Nat
  actionHandled : Bool
  ignoreEvent : Bool
deriving DecidableEq, Repr

/-- The fresh propagation state built by `_clearEventPropagationState`. -/
def initialEventPropagationState : EventPropagationState :=
  { previousComponentIndex := 0, actionHandled := false, ignoreEvent := false }

/-- `this.currentEvent` of `FocusOnlyKeyEventStrategy` (the key-event counter
is logging-only and not modelled). -/
structure CurrentEvent where
  key : Option String
  type : Option EventKind
  handled : Bool

/-- A queued entry of `keypressEventsToSimulate`. -/
structure SimulatedEvent where
  event : KeyEvent
  focusTreeId : Nat
  componentId : Nat
  options : Options

/-- The full mutable state of a `FocusOnlyKeyEventStrategy` instance that the
event-handling paths read or write. -/
structure StrategyState where
  focusTreeId : Nat
  eventPropagationState : EventPropagationState
  keyCombinationHistory : List KeyCombination
  keyCombinationIncludesKeyUp : Bool
  keypressEventsToSimulate : List SimulatedEvent
  componentList : List Component
  longestSequence : Nat
  keyMapEventBitmap : KeyEventBitmap
  currentEvent : CurrentEvent
  resolution : ResolutionState

/-- The empty key combination the source substitutes for an empty history
(`{ keys: {}, ids: [''] }`). -/
def emptyCombination : KeyCombination := { keys := [], ids := [""] }

/-- `_getCurrentKeyCombination` on a bare history list. -/
def currentCombinationOfHistory (h : List KeyCombination) : KeyCombination :=
  match h.getLast? with
  | some c => c
  | none => emptyCombination

/-- `AbstractKeyEventStrategy#_getCurrentKeyCombination`. -/
def _getCurrentKeyCombination (s : StrategyState) : KeyCombination :=
  currentCombinationOfHistory s.keyCombinationHistory

/-- `AbstractKeyEventStrategy#_addToCurrentKeyCombination`: ensure the history
is non-empty, then rotate the key's `current` bitmap into `previous` (a fresh
pair when the key is new) and re-serialize the ids. -/
def _addToCurrentKeyCombination (keyName : String) (e : EventKind) (s : StrategyState) :
    StrategyState :=
  let hist0 :=
    if s.keyCombinationHistory.length = 0 then [emptyCombination]
    else s.keyCombinationHistory
  let kc := currentCombinationOfHistory hist0
  let newState : KeyState :=
    match alook kc.keys keyName with
    | none => { previous := newBitmap, current := newBitmapWith e }
    | some st => { previous := st.current, current := newBitmapWith e }
  let keys' := aset kc.keys keyName newState
  { s with keyCombinationHistory := hist0.dropLast ++ [{ keys := keys', ids := serializeKeys keys' }] }

/-- `AbstractKeyEventStrategy#_withoutKeyUps`: the keys of a combination whose
`current` bitmap has no keyup recorded, in enumeration order. -/
def _withoutKeyUps (kc : KeyCombination) : List (String × KeyState) :=
  kc.keys.filter (fun p => !(p.2.current.get .keyup))

/-- `AbstractKeyEventStrategy#_startNewKeyCombination`: drop the oldest entry
when the history already exceeds `longestSequence`, carry forward the keys not
yet released, add the new key with a fresh pair, push, and reset the
includes-keyup flag. -/
def _startNewKeyCombination (keyName : String) (e : EventKind) (s : StrategyState) :
    StrategyState :=
  let hist0 :=
    if s.keyCombinationHistory.length > s.longestSequence then s.keyCombinationHistory.drop 1
    else s.keyCombinationHistory
  let last := currentCombinationOfHistory hist0
  let keys' := aset (_withoutKeyUps last) keyName
    { previous := newBitmap, current := newBitmapWith e }
  { s with
      keyCombinationHistory := hist0 ++ [{ keys := keys', ids := serializeKeys keys' }],
      keyCombinationIncludesKeyUp := false }

/-! ## Handler resolution (`_callMatchingHandlerClosestToEventTarget`, build phase) -/

/-- The mutable dictionaries threaded through the resolution build loop. -/
structure BuildState where
  keyMaps : List KeyMap
  unmatched : List (Nat × List String)
  handlersDictionary : List (String × List Nat)
  keySequencesDictionary : List (String × List (Nat × EventKind))

/-- One iteration of the inner `keyMatchers.forEach` body: bind one matcher's
sequence/combination into the handler-owning component's key map, unless a
component closer to the event target already claimed the sequence for this
event kind. -/
def processKeyMatcher (hci : Nat) (handler : Nat) (b : BuildState) (km : ActionConfig) :
    BuildState :=
  let keySequence := km.pfx ++ " " ++ km.id
  let closestSequenceHandlerAlreadyFound :=
    ((alook b.keySequencesDictionary keySequence).getD []).any
      (fun q => q.2 == km.eventBitmapIndex)
  if closestSequenceHandlerAlreadyFound then b
  else
    let kmap := b.keyMaps.getD hci {}
    let grp := (alook kmap.sequences km.pfx).getD { combinations := [] }
    let entry : EventEntry :=
      { actionName := km.actionName, eventBitmapIndex := km.eventBitmapIndex, handler := handler }
    let newComb : Combination :=
      match alook grp.combinations km.id with
      | none =>
        { pfx := km.pfx, sequenceLength := km.sequenceLength, id := km.id,
          keyDictionary := km.keyDictionary, size := km.size,
          events := [(km.eventBitmapIndex, entry)] }
      | some c => { c with events := aset c.events km.eventBitmapIndex entry }
    let grp' := { grp with combinations := aset grp.combinations km.id newComb }
    let kmap' :=
      { kmap with
          sequences := aset kmap.sequences km.pfx grp',
          eventBitmap := kmap.eventBitmap.setBit km.eventBitmapIndex,
          longestSequence :=
            if kmap.longestSequence == 0 || kmap.longestSequence < km.sequenceLength then
              km.sequenceLength
            else kmap.longestSequence }
    { b with
        keyMaps := b.keyMaps.set hci kmap',
        keySequencesDictionary :=
          aset b.keySequencesDictionary keySequence
            (((alook b.keySequencesDictionary keySequence).getD []) ++
              [(hci, km.eventBitmapIndex)]) }

/-- One iteration of the `Object.keys(actions).forEach` body: resolve one
action name against the handler-ownership dictionary, bind its matchers, and
decrement the unmatched-handler counters (once per action per component). -/
def processAction (cl : List Component) (b : BuildState) (actionName : String)
    (keyMatchers : List ActionConfig) : BuildState :=
  match alook b.handlersDictionary actionName with
  | none => b
  | some arr =>
    let hci := arr.headD 0
    let handler := (alook ((cl.getD hci default).handlers) actionName).getD 0
    let b1 := keyMatchers.foldl (processKeyMatcher hci handler) b
    let unmatched' := arr.foldl (fun um h =>
        match um.get? h with
        | none => um
        | some st =>
          if st.2.contains actionName then um
          else um.set h (st.1 - 1, st.2 ++ [actionName])) b1.unmatched
    { b1 with unmatched := unmatched' }

/-- The body of one `while` iteration of the build loop at `searchIndex = si`:
record which component owns each handler name, then bind every action the
component defines. -/
def processSearchIndex (cl : List Component) (si : Nat) (b : BuildState) : BuildState :=
  let comp := cl.getD si default
  let hd1 := comp.handlers.foldl
    (fun acc p => aset acc p.1 (((alook acc p.1).getD []) ++ [si])) b.handlersDictionary
  let b1 := { b with handlersDictionary := hd1 }
  comp.actions.foldl (fun bb ap => processAction cl bb ap.1 ap.2) b1

/-- The build `while` loop.  The source reads the unmatched count into a local
variable that is never reassigned, so once entered the loop walks
`searchIndex` to the end of the component list; the fuel argument is the
remaining number of components. -/
def _resolveLoop (cl : List Component) : Nat → Nat → BuildState → BuildState × Nat
  | 0, si, b => (b, si)
  | fuel + 1, si, b =>
    if si < cl.length then _resolveLoop cl fuel (si + 1) (processSearchIndex cl si b)
    else (b, si)

/-! ## Sequence matching (`_callMatchingHandlerClosestToEventTarget`, match phase) -/

/-- JS `array.slice(-counter, -1)`: the trailing `counter`-sized window of the
history, excluding the in-progress final combination (`-0` is `0`, so a zero
counter yields everything but the last element). -/
def jsSliceNegNeg {α : Type} (l : List α) (counter : Nat) : List α :=
  (l.drop (if counter = 0 then 0 else l.length - min counter l.length)).dropLast

/-- Modelled from the spec: the `indexFromEnd` array util is repository code
not under `src/`; per its call sites it reads the element `i` places from the
end of the list (0 when absent, as the odometer's `|| 1` guard expects). -/
def indexFromEnd (l : List Nat) (i : Nat) : Nat :=
  l.getD (l.length - 1 - i) 0

/-- The carry loop of the alias-permutation odometer
(`_tryMatchSequenceWithKeyAliases`): increment the counter `incrementer`
places from the end modulo its id-list size, carrying while the incremented
counter wraps to zero.  Returns the new counters and the final value of
`incrementer`. -/
def odoIncAux (idSizes : List Nat) : Nat → List Nat → Nat → List Nat × Nat
  | 0, counters, incrementer => (counters, incrementer)
  | fuel + 1, counters, incrementer =>
    if incrementer < counters.length then
      let count := indexFromEnd counters incrementer
      let sz := indexFromEnd idSizes incrementer
      let newIndex := (count + 1) % (if sz = 0 then 1 else sz)
      let counters' := counters.set (counters.length - (incrementer + 1)) newIndex
      if newIndex = 0 then odoIncAux idSizes fuel counters' (incrementer + 1)
      else (counters', incrementer)
    else (counters, incrementer)

/-- The odometer search over id permutations: join the current permutation
with spaces, look it up among the registered prefixes, and advance the
counters until every permutation has been tried.  The fuel bounds the number
of permutations (the product of the id-list sizes). -/
def _tryMatchAux (keyMatcher : List (String × SequenceGroup)) (sequenceIds : List (List String))
    (idSizes : List Nat) : Nat → List Nat → Option (String × SequenceGroup)
  | 0, _ => none
  | fuel + 1, counters =>
    let perm := List.zipWith (fun (ids : List String) c => ids.getD c "") sequenceIds counters
    let candidateId := String.intercalate " " perm
    match alook keyMatcher candidateId with
    | some grp => some (candidateId, grp)
    | none =>
      let r := odoIncAux idSizes (counters.length + 1) counters 0
      if r.2 = counters.length then none
      else _tryMatchAux keyMatcher sequenceIds idSizes fuel r.1

/-- `AbstractKeyEventStrategy#_tryMatchSequenceWithKeyAliases`; in addition to
the matched group we return the prefix string it was found under, modelling
the object reference through which the source later caches the group's
`order`. -/
def _tryMatchSequenceWithKeyAliases (keyMatcher : List (String × SequenceGroup))
    (sequenceIds : List (List String)) : Option (String × SequenceGroup) :=
  if sequenceIds.isEmpty then (alook keyMatcher "").map (fun g => ("", g))
  else
    let idSizes := sequenceIds.map List.length
    let counters := sequenceIds.map (fun _ => 0)
    _tryMatchAux keyMatcher sequenceIds idSizes
      ((idSizes.foldl (fun a b => a * max 1 b) 1) + 1) counters

/-- `AbstractKeyEventStrategy#_keyIsCurrentlyTriggeringEvent`. -/
def _keyIsCurrentlyTriggeringEvent (st : KeyState) (e : EventKind) : Bool :=
  st.current.get e

/-- `AbstractKeyEventStrategy#_keyAlreadyTriggeredEvent`. -/
def _keyAlreadyTriggeredEvent (st : KeyState) (e : EventKind) : Bool :=
  st.previous.get e

/-- `AbstractKeyEventStrategy#_tryMatchWithKeyAliases`: pick the alias table
from the Shift/Alt context of the live combination and return the first alias
present in it. -/
def _tryMatchWithKeyAliases (env : Env) (keyState : KeyCombination) (candidateKeyName : String) :
    Option String :=
  let candidateKeyNames :=
    if (alook keyState.keys "Shift").isSome then
      if (alook keyState.keys "Alt").isSome then env.resolveAltShiftedAlias candidateKeyName
      else env.resolveShiftedAlias candidateKeyName
    else
      if (alook keyState.keys "Alt").isSome then env.resolveAltedAlias candidateKeyName
      else env.resolveKeyAlias candidateKeyName
  candidateKeyNames.find? (fun n => (alook keyState.keys n).isSome)

/-- `AbstractKeyEventStrategy#_keyNameAsItAppearsInKeyboardState`. -/
def _keyNameAsItAppearsInKeyboardState (env : Env) (current : KeyCombination)
    (keyName : String) : Option String :=
  if (alook current.keys keyName).isSome then some keyName
  else _tryMatchWithKeyAliases env current keyName

/-- The `Object.keys(keyDictionary).some(...)` walk of
`_combinationMatchesKeys`, threading the `keyCompletesCombination` side effect
and short-circuiting on the first missing or inactive key.  Returns
(`some` returned true, final `keyCompletesCombination`). -/
def _checkCombKeys (env : Env) (current : KeyCombination) (keyBeingPressed : String)
    (e : EventKind) : List String → Bool → Bool × Bool
  | [], completes => (false, completes)
  | cand :: rest, completes =>
    match _keyNameAsItAppearsInKeyboardState env current cand with
    | none => (true, completes)
    | some kk =>
      match alook current.keys kk with
      | none => (true, completes)
      | some st =>
        if _keyIsCurrentlyTriggeringEvent st e then
          let completes' :=
            if (keyBeingPressed != "") && (kk == keyBeingPressed) then
              !(_keyAlreadyTriggeredEvent st e)
            else completes
          _checkCombKeys env current keyBeingPressed e rest completes'
        else (true, completes)

/-- `AbstractKeyEventStrategy#_combinationMatchesKeys`. -/
def _combinationMatchesKeys (env : Env) (keyBeingPressed : String)
    (keyboardState : KeyCombination) (combinationMatch : Combination) (e : EventKind) : Bool :=
  if (alook combinationMatch.events e).isNone then false
  else
    let r := _checkCombKeys env keyboardState keyBeingPressed e
      combinationMatch.keyDictionary false
    (!r.1) && r.2

/-- Descending insertion used to model JS
`Object.keys(partition).sort((a, b) => b - a)` (numeric object keys enumerate
in ascending order; the sort makes them descending). -/
def insertDesc (n : Nat) : List Nat → List Nat
  | [] => [n]
  | m :: ms => if m ≤ n then n :: m :: ms else m :: insertDesc n ms

/-- Sort a list of sizes in descending order. -/
def sortDescNat (l : List Nat) : List Nat := l.foldr insertDesc []

/-- The combinations of one sequence group arranged by descending combination
size, equal sizes keeping their first-registered (insertion) order: the
pair-level view of the `order` computed by the source (which partitions
`Object.values(combinations)` into numeric-keyed size buckets, preserving
insertion order inside each bucket, then concatenates the buckets by
descending size). -/
def orderedCombs (combs : List (String × Combination)) : List (String × Combination) :=
  (sortDescNat ((combs.map (fun c => c.2.size)).dedup)).flatMap
    (fun sz => combs.filter (fun c => c.2.size == sz))

/-- The `order` id list the source stores on the sequence group (the bucket
walk pushes each combination's `id`). -/
def computeCombinationOrder (combs : List (String × Combination)) : List String :=
  (sortDescNat ((combs.map (fun c => c.2.size)).dedup)).flatMap
    (fun sz => (combs.filter (fun c => c.2.size == sz)).map (fun c => c.2.id))

/-- The `if (!matchingSequence.order)` caching step: compute and store the
priority order the first time the group is matched, reuse it afterwards. -/
def ensureOrder (g : SequenceGroup) : SequenceGroup :=
  if g.order.isSome then g
  else { g with order := some (computeCombinationOrder g.combinations) }

/-- The inner `while (combinationIndex < combinationOrder.length)` loop: try
each candidate combination in priority order and return the bound handler of
the first one matching the pressed keys. -/
def _tryCombinations (env : Env) (keyName : String) (e : EventKind)
    (currentKeyState : KeyCombination) (grp : SequenceGroup) : List String → Option Nat
  | [] => none
  | cid :: rest =>
    match alook grp.combinations cid with
    | none => _tryCombinations env keyName e currentKeyState grp rest
    | some cm =>
      if _combinationMatchesKeys env keyName currentKeyState cm e then
        (alook cm.events e).map (fun entry => entry.handler)
      else _tryCombinations env keyName e currentKeyState grp rest

/-- The `while (sequenceLengthCounter >= 0)` loop: for each window length,
look the serialized window up among the registered prefixes (via the alias
odometer), lazily order the matched group's combinations, and try them in
priority order.  The updated `sequences` dictionary is threaded through,
modelling the in-place caching of `order`. -/
def _matchLoop (env : Env) (keyName : String) (e : EventKind) (history : List KeyCombination)
    (currentKeyState : KeyCombination) :
    Nat → List (String × SequenceGroup) → List (String × SequenceGroup) × Option Nat
  | counter, sequences =>
    let sequenceHistory := jsSliceNegNeg history counter
    let sequenceHistoryIds := sequenceHistory.map KeyCombination.ids
    match _tryMatchSequenceWithKeyAliases sequences sequenceHistoryIds with
    | some (pfxId, grp) =>
      let grp' := ensureOrder grp
      let sequences' := aset sequences pfxId grp'
      match _tryCombinations env keyName e currentKeyState grp' (grp'.order.getD []) with
      | some h => (sequences', some h)
      | none =>
        match counter with
        | 0 => (sequences', none)
        | n + 1 => _matchLoop env keyName e history currentKeyState n sequences'
    | none =>
      match counter with
      | 0 => (sequences, none)
      | n + 1 => _matchLoop env keyName e history currentKeyState n sequences

/-- `AbstractKeyEventStrategy#_callMatchingHandlerClosestToEventTarget`:
initialise the resolution dictionaries if reset, extend them up to the root
while the requesting component has unmatched handlers, then match the
combination history against the component's resolved map.  Returns the new
resolution state and the invoked handler, if any (the source returns `true`
after calling the handler, `undefined` otherwise). -/
def _callMatchingHandlerClosestToEventTarget (env : Env) (keyName : String) (e : EventKind)
    (componentId : Nat) (history : List KeyCombination) (cl : List Component)
    (rs : ResolutionState) : ResolutionState × Option Nat :=
  let init : List KeyMap × List (Nat × List String) :=
    match rs.keyMaps, rs.unmatchedHandlerStatus with
    | some km, some um => (km, um)
    | _, _ => (cl.map (fun _ => {}), cl.map (fun c => (c.handlers.length, [])))
  let count0 := (init.2.getD componentId (0, [])).1
  let b0 : BuildState :=
    { keyMaps := init.1, unmatched := init.2,
      handlersDictionary := rs.handlersDictionary,
      keySequencesDictionary := rs.keySequencesDictionary }
  let built : BuildState × Nat :=
    if count0 > 0 then
      let siStart := if rs.searchIndex < componentId then componentId else rs.searchIndex
      _resolveLoop cl (cl.length - siStart) siStart b0
    else (b0, rs.searchIndex)
  let keyMap := built.1.keyMaps.getD componentId {}
  let rsBase : ResolutionState :=
    { keyMaps := some built.1.keyMaps, unmatchedHandlerStatus := some built.1.unmatched,
      searchIndex := built.2, handlersDictionary := built.1.handlersDictionary,
      keySequencesDictionary := built.1.keySequencesDictionary }
  if keyMap.sequences.isEmpty || !(keyMap.eventBitmap.get e) then (rsBase, none)
  else
    let currentKeyState := currentCombinationOfHistory history
    let m := _matchLoop env keyName e history currentKeyState keyMap.longestSequence
      keyMap.sequences
    ({ rsBase with keyMaps := some (built.1.keyMaps.set componentId { keyMap with sequences := m.1 }) },
      m.2)

/-! ## The FocusOnly strategy's per-event entry points -/

/-- `FocusOnlyKeyEventStrategy#_alreadyEstablishedShouldIgnoreEvent`. -/
def _alreadyEstablishedShouldIgnoreEvent (s : StrategyState) : Bool :=
  s.eventPropagationState.ignoreEvent

/-- `FocusOnlyKeyEventStrategy#_isNewKeyEvent`: the source guard
`previousComponentIndex >= componentId`; `handleKeydown` runs the
first-sighting bookkeeping exactly when this returns `true`. -/
def _isNewKeyEvent (componentId : Nat) (s : StrategyState) : Bool :=
  s.eventPropagationState.previousComponentIndex ≥ componentId

/-- `FocusOnlyKeyEventStrategy#_isFocusTreeRoot`
(`componentId >= componentList.length - 1`, with JS and truncated Nat
subtraction agreeing on every list length). -/
def _isFocusTreeRoot (componentId : Nat) (s : StrategyState) : Bool :=
  componentId ≥ s.componentList.length - 1

/-- `FocusOnlyKeyEventStrategy#_updateEventPropagationHistory`. -/
def _updateEventPropagationHistory (componentId : Nat) (s : StrategyState) : StrategyState :=
  if _isFocusTreeRoot componentId s then
    { s with eventPropagationState := initialEventPropagationState }
  else
    { s with eventPropagationState :=
        { s.eventPropagationState with previousComponentIndex := componentId } }

/-- `FocusOnlyKeyEventStrategy#_setIgnoreEventFlag`. -/
def _setIgnoreEventFlag (opts : Options) (ev : KeyEvent) (s : StrategyState) : StrategyState :=
  { s with eventPropagationState :=
      { s.eventPropagationState with ignoreEvent := opts.ignoreEventsCondition ev } }

/-- `FocusOnlyKeyEventStrategy#_setNewEventParameters` (the global key-event
counter it also bumps is logging-only and not modelled). -/
def _setNewEventParameters (ev : KeyEvent) (e : EventKind) (s : StrategyState) : StrategyState :=
  { s with currentEvent := { key := some ev.key, type := some e, handled := false } }

/-- The observable outcome of `_callHandlerIfActionNotHandled`: the new
strategy state, whether a handler was called, and the identifiers of the
handlers invoked during the call. -/
structure CallResult where
  state : StrategyState
  called : Bool
  invoked : List Nat

/-- `FocusOnlyKeyEventStrategy#_callHandlerIfActionNotHandled`: skip matching
entirely when no key map is bound to this event kind or when the action has
already been handled during this propagation; otherwise run the matcher and,
if it called a handler, record `actionHandled` and `currentEvent.handled`. -/
def _callHandlerIfActionNotHandled (env : Env) (keyName : String) (e : EventKind)
    (componentId : Nat) (s : StrategyState) : CallResult :=
  if s.keyMapEventBitmap.get e then
    if s.eventPropagationState.actionHandled then
      { state := s, called := false, invoked := [] }
    else
      let m := _callMatchingHandlerClosestToEventTarget env keyName e componentId
        s.keyCombinationHistory s.componentList s.resolution
      let called := m.2.isSome
      { state :=
          { s with
              resolution := m.1,
              eventPropagationState :=
                if called then { s.eventPropagationState with actionHandled := true }
                else s.eventPropagationState,
              currentEvent :=
                if called then { s.currentEvent with handled := true } else s.currentEvent },
        called := called,
        invoked := m.2.toList }
  else
    { state := s, called := false, invoked := [] }

/-- The observable outcome of one `handleKeydown` / `handleKeypress` /
`handleKeyup` call: the new state, the JS return value (`some true` when the
event was discarded as stale, `some false` for keydown's normal return,
`none` where the source returns `undefined`), the handlers invoked, and the
number of times the caller-supplied `ignoreEventsCondition` predicate was
evaluated during the call. -/
structure HandleResult where
  state : StrategyState
  ret : Option Bool
  invoked : List Nat
  ignoreEvals : Nat

/-- `FocusOnlyKeyEventStrategy#handleKeypress`. -/
def handleKeypress (env : Env) (opts : Options) (ev : KeyEvent)
    (focusTreeId componentId : Nat) (s : StrategyState) : HandleResult :=
  let _key := env.normalizeKeyName ev.key
  if focusTreeId ≠ s.focusTreeId then
    { state := s, ret := some true, invoked := [], ignoreEvals := 0 }
  else if _alreadyEstablishedShouldIgnoreEvent s then
    { state := _updateEventPropagationHistory componentId s, ret := none,
      invoked := [], ignoreEvals := 0 }
  else if _isNewKeyEvent componentId s then
    let sA := _setIgnoreEventFlag opts ev (_setNewEventParameters ev .keypress s)
    if _alreadyEstablishedShouldIgnoreEvent sA then
      { state := _updateEventPropagationHistory componentId sA, ret := none,
        invoked := [], ignoreEvals := 1 }
    else
      let alreadySeenKeyInCurrentCombo :=
        match alook (_getCurrentKeyCombination sA).keys _key with
        | some st => st.current.get .keypress || st.current.get .keyup
        | none => false
      let sB :=
        if alreadySeenKeyInCurrentCombo then _startNewKeyCombination _key .keypress sA
        else _addToCurrentKeyCombination _key .keypress sA
      let cr := _callHandlerIfActionNotHandled env _key .keypress componentId sB
      { state := _updateEventPropagationHistory componentId cr.state, ret := none,
        invoked := cr.invoked, ignoreEvals := 1 }
  else
    let cr := _callHandlerIfActionNotHandled env _key .keypress componentId s
    { state := _updateEventPropagationHistory componentId cr.state, ret := none,
      invoked := cr.invoked, ignoreEvals := 0 }

/-- `FocusOnlyKeyEventStrategy#handleKeyup`. -/
def handleKeyup (env : Env) (opts : Options) (ev : KeyEvent)
    (focusTreeId componentId : Nat) (s : StrategyState) : HandleResult :=
  let _key := env.normalizeKeyName ev.key
  if focusTreeId ≠ s.focusTreeId then
    { state := s, ret := some true, invoked := [], ignoreEvals := 0 }
  else if _alreadyEstablishedShouldIgnoreEvent s then
    { state := _updateEventPropagationHistory componentId s, ret := none,
      invoked := [], ignoreEvals := 0 }
  else if _isNewKeyEvent componentId s then
    let sA := _setIgnoreEventFlag opts ev (_setNewEventParameters ev .keyup s)
    if _alreadyEstablishedShouldIgnoreEvent sA then
      { state := _updateEventPropagationHistory componentId sA, ret := none,
        invoked := [], ignoreEvals := 1 }
    else
      let alreadySeenKeyEventInCombo :=
        match alook (_getCurrentKeyCombination sA).keys _key with
        | some st => st.current.get .keyup
        | none => false
      let sB :=
        if alreadySeenKeyEventInCombo then _startNewKeyCombination _key .keyup sA
        else
          { _addToCurrentKeyCombination _key .keyup sA with keyCombinationIncludesKeyUp := true }
      let cr := _callHandlerIfActionNotHandled env _key .keyup componentId sB
      { state := _updateEventPropagationHistory componentId cr.state, ret := none,
        invoked := cr.invoked, ignoreEvals := 1 }
  else
    let cr := _callHandlerIfActionNotHandled env _key .keyup componentId s
    { state := _updateEventPropagationHistory componentId cr.state, ret := none,
      invoked := cr.invoked, ignoreEvals := 0 }

/-- The `keypressEventsToSimulate.forEach` replay performed when a keydown
event is about to leave the focus-tree root: deliver each queued simulated
keypress through `handleKeypress` in FIFO order, accumulating the handlers it
invokes and the ignore-predicate evaluations it performs. -/
def simulateQueue (env : Env) : List SimulatedEvent → StrategyState × List Nat × Nat →
    StrategyState × List Nat × Nat
  | [], acc => acc
  | se :: rest, acc =>
    let hr := handleKeypress env se.options se.event se.focusTreeId se.componentId acc.1
    simulateQueue env rest (hr.state, acc.2.1 ++ hr.invoked, acc.2.2 + hr.ignoreEvals)

/-- The tail of `handleKeydown` shared by the first-sighting and bubbling
paths: match/call the handler, queue a simulated keypress when the key has no
native one, replay the queued simulated keypress events (in FIFO order) when
the event is leaving the focus-tree root, update the propagation history and
return `false`. -/
def keydownTail (env : Env) (opts : Options) (ev : KeyEvent)
    (focusTreeId componentId : Nat) (_key : String) (s : StrategyState) (evals : Nat) :
    HandleResult :=
  let cr := _callHandlerIfActionNotHandled env _key .keydown componentId s
  let s5 :=
    if !(env.hasKeyPressEvent _key) && env.simulateMissingKeyPressEvents then
      { cr.state with keypressEventsToSimulate :=
          cr.state.keypressEventsToSimulate ++
            [{ event := ev, focusTreeId := focusTreeId, componentId := componentId,
               options := opts }] }
    else cr.state
  let replay : StrategyState × List Nat × Nat :=
    if _isFocusTreeRoot componentId s5 then
      let r := simulateQueue env s5.keypressEventsToSimulate (s5, [], 0)
      ({ r.1 with keypressEventsToSimulate := [] }, r.2.1, r.2.2)
    else (s5, [], 0)
  { state := _updateEventPropagationHistory componentId replay.1,
    ret := some false,
    invoked := cr.invoked ++ replay.2.1,
    ignoreEvals := evals + replay.2.2 }

/-- `FocusOnlyKeyEventStrategy#handleKeydown`. -/
def handleKeydown (env : Env) (opts : Options) (ev : KeyEvent)
    (focusTreeId componentId : Nat) (s : StrategyState) : HandleResult :=
  let _key := env.normalizeKeyName ev.key
  if focusTreeId ≠ s.focusTreeId then
    { state := s, ret := some true, invoked := [], ignoreEvals := 0 }
  else if _alreadyEstablishedShouldIgnoreEvent s then
    { state := _updateEventPropagationHistory componentId s, ret := some false,
      invoked := [], ignoreEvals := 0 }
  else if _isNewKeyEvent componentId s then
    let sA := _setIgnoreEventFlag opts ev (_setNewEventParameters ev .keydown s)
    if _alreadyEstablishedShouldIgnoreEvent sA then
      { state := _updateEventPropagationHistory componentId sA, ret := some false,
        invoked := [], ignoreEvals := 1 }
    else
      let keyInCurrentCombination := (alook (_getCurrentKeyCombination sA).keys _key).isSome
      let sB :=
        if keyInCurrentCombination || sA.keyCombinationIncludesKeyUp then
          _startNewKeyCombination _key .keydown sA
        else _addToCurrentKeyCombination _key .keydown sA
      keydownTail env opts ev focusTreeId componentId _key sB 1
  else
    keydownTail env opts ev focusTreeId componentId _key s 0

/-- One key event delivered to one component, as used to state whole-run
invariants: the kind selects the entry point, the rest are its arguments. -/
structure EventInput where
  kind : EventKind
  event : KeyEvent
  focusTreeId : Nat
  componentId : Nat
  options : Options

/-- Deliver one event input to the strategy and keep the resulting state. -/
def processEvent (env : Env) (s : StrategyState) (i : EventInput) : StrategyState :=
  match i.kind with
  | .keydown => (handleKeydown env i.options i.event i.focusTreeId i.componentId s).state
  | .keypress => (handleKeypress env i.options i.event i.focusTreeId i.componentId s).state
  | .keyup => (handleKeyup env i.options i.event i.focusTreeId i.componentId s).state

/-- Deliver a list of event inputs in order. -/
def processEvents (env : Env) (l : List EventInput) (s : StrategyState) : StrategyState :=
  l.foldl (processEvent env) s

/-- One full bubble of a single keydown event: deliver it to components
`cid, cid+1, ...` (`fuel` many), accumulating the total number of
ignore-predicate evaluations and the handlers invoked.  Spec section 5:
events arrive in strict bubble order, innermost component first. -/
def bubbleFrom (env : Env) (opts : Options) (ev : KeyEvent) (focusTreeId : Nat) :
    Nat → Nat → StrategyState → StrategyState × Nat × List Nat
  | _, 0, s => (s, 0, [])
  | cid, fuel + 1, s =>
    let r := handleKeydown env opts ev focusTreeId cid s
    let rest := bubbleFrom env opts ev focusTreeId (cid + 1) fuel r.state
    (rest.1, r.ignoreEvals + rest.2.1, r.invoked ++ rest.2.2)

/-- Deliver one keydown event to every registered component in bubble order
(component 0 up to the focus-tree root). -/
def bubbleKeydown (env : Env) (opts : Options) (ev : KeyEvent) (focusTreeId : Nat)
    (s : StrategyState) : StrategyState × Nat × List Nat :=
  bubbleFrom env opts ev focusTreeId 0 s.componentList.length s

/-! ## Basic lemmas about the embedded operations -/

theorem callHandler_frame (env : Env) (k : String) (e : EventKind) (cid : Nat)
    (s : StrategyState) :
    ((_callHandlerIfActionNotHandled env k e cid s).state.focusTreeId = s.focusTreeId) ∧
    ((_callHandlerIfActionNotHandled env k e cid s).state.componentList = s.componentList) ∧
    ((_callHandlerIfActionNotHandled env k e cid s).state.keypressEventsToSimulate =
      s.keypressEventsToSimulate) ∧
    ((_callHandlerIfActionNotHandled env k e cid s).state.longestSequence =
      s.longestSequence) ∧
    ((_callHandlerIfActionNotHandled env k e cid s).state.keyCombinationHistory =
      s.keyCombinationHistory) ∧
    ((_callHandlerIfActionNotHandled env k e cid s).state.keyCombinationIncludesKeyUp =
      s.keyCombinationIncludesKeyUp) ∧
    ((_callHandlerIfActionNotHandled env k e cid s).state.eventPropagationState.previousComponentIndex =
      s.eventPropagationState.previousComponentIndex) ∧
    ((_callHandlerIfActionNotHandled env k e cid s).state.eventPropagationState.ignoreEvent =
      s.eventPropagationState.ignoreEvent) := by
  unfold _callHandlerIfActionNotHandled
  split
  · split
    · simp
    · by_cases hm : (_callMatchingHandlerClosestToEventTarget env k e cid
        s.keyCombinationHistory s.componentList s.resolution).2.isSome <;>
        simp [hm]
  · simp

theorem callHandler_invoked_le_one (env : Env) (k : String) (e : EventKind) (cid : Nat)
    (s : StrategyState) :
    (_callHandlerIfActionNotHandled env k e cid s).invoked.length ≤ 1 := by
  unfold _callHandlerIfActionNotHandled
  split
  · split
    · simp
    · rcases hm : (_callMatchingHandlerClosestToEventTarget env k e cid
        s.keyCombinationHistory s.componentList s.resolution).2 with _ | v <;> simp [hm]
  · simp

theorem callHandler_skip_of_handled (env : Env) (k : String) (e : EventKind) (cid : Nat)
    (s : StrategyState) (h : s.eventPropagationState.actionHandled = true) :
    (_callHandlerIfActionNotHandled env k e cid s).state = s ∧
    (_callHandlerIfActionNotHandled env k e cid s).invoked = [] := by
  unfold _callHandlerIfActionNotHandled
  split <;> simp [h]

theorem callHandler_handled_of_invoked (env : Env) (k : String) (e : EventKind) (cid : Nat)
    (s : StrategyState)
    (h : (_callHandlerIfActionNotHandled env k e cid s).invoked ≠ []) :
    (_callHandlerIfActionNotHandled env k e cid s).state.eventPropagationState.actionHandled =
      true := by
  unfold _callHandlerIfActionNotHandled at *
  revert h
  split
  · split
    · simp
    · rcases hm : (_callMatchingHandlerClosestToEventTarget env k e cid
        s.keyCombinationHistory s.componentList s.resolution).2 with _ | v <;> simp [hm]
  · simp

theorem callHandler_not_handled_of_empty (env : Env) (k : String) (e : EventKind) (cid : Nat)
    (s : StrategyState) (hah : s.eventPropagationState.actionHandled = false)
    (h : (_callHandlerIfActionNotHandled env k e cid s).invoked = []) :
    (_callHandlerIfActionNotHandled env k e cid s).state.eventPropagationState.actionHandled =
      false := by
  unfold _callHandlerIfActionNotHandled at *
  revert h
  split
  · split
    · simp_all
    · rcases hm : (_callMatchingHandlerClosestToEventTarget env k e cid
        s.keyCombinationHistory s.componentList s.resolution).2 with _ | v <;> simp_all
  · simp_all

/-! ## C9 and C10: stale-generation discarding and the keydown return value -/

/-- Claim C9: a keydown, keypress or keyup event carrying a focus-tree id
different from the strategy's current one is discarded: the handler returns
the discarded result (`true`) and the entire engine state — key combination
history, propagation state, resolution caches and component list included —
is exactly the state before the call, with no handler invoked and no ignore
predicate evaluated. -/
theorem spec_C9 (env : Env) (opts : Options) (ev : KeyEvent) (focusTreeId componentId : Nat)
    (s : StrategyState) (h : focusTreeId ≠ s.focusTreeId) :
    ((handleKeydown env opts ev focusTreeId componentId s).state = s ∧
      (handleKeydown env opts ev focusTreeId componentId s).ret = some true ∧
      (handleKeydown env opts ev focusTreeId componentId s).invoked = [] ∧
      (handleKeydown env opts ev focusTreeId componentId s).ignoreEvals = 0) ∧
    ((handleKeypress env opts ev focusTreeId componentId s).state = s ∧
      (handleKeypress env opts ev focusTreeId componentId s).ret = some true ∧
      (handleKeypress env opts ev focusTreeId componentId s).invoked = [] ∧
      (handleKeypress env opts ev focusTreeId componentId s).ignoreEvals = 0) ∧
    ((handleKeyup env opts ev focusTreeId componentId s).state = s ∧
      (handleKeyup env opts ev focusTreeId componentId s).ret = some true ∧
      (handleKeyup env opts ev focusTreeId componentId s).invoked = [] ∧
      (handleKeyup env opts ev focusTreeId componentId s).ignoreEvals = 0) := by
  unfold handleKeydown handleKeypress handleKeyup
  simp [h]

/-- A concrete strategy state used by the closed witness and counterexample
theorems: one focused component with no actions or handlers, fresh
propagation state, empty history. -/
def cexComponent : Component := { actions := [], handlers := [], componentId := 0 }

/-- Concrete environment for closed theorems: identity normalisation and
alias tables, every key has a native keypress, simulation disabled. -/
def cexEnv : Env :=
  { normalizeKeyName := id, hasKeyPressEvent := fun _ => true,
    simulateMissingKeyPressEvents := false,
    resolveAltShiftedAlias := fun k => [k], resolveShiftedAlias := fun k => [k],
    resolveAltedAlias := fun k => [k], resolveKeyAlias := fun k => [k] }

/-- Concrete options for closed theorems: the ignore predicate rejects
nothing. -/
def cexOpts : Options := { ignoreEventsCondition := fun _ => false }

/-- Concrete freshly-reset strategy state (focus tree 0, one component). -/
def cexState : StrategyState :=
  { focusTreeId := 0,
    eventPropagationState := initialEventPropagationState,
    keyCombinationHistory := [],
    keyCombinationIncludesKeyUp := false,
    keypressEventsToSimulate := [],
    componentList := [cexComponent],
    longestSequence := 1,
    keyMapEventBitmap := {},
    currentEvent := { key := none, type := none, handled := false },
    resolution := { keyMaps := none, unmatchedHandlerStatus := none, searchIndex := 0,
                    handlersDictionary := [], keySequencesDictionary := [] } }

/-- Witness for C9 at a concrete input: focus tree id 1 against current id 0. -/
theorem spec_C9_witness :
    (handleKeydown cexEnv cexOpts { key := "a" } 1 0 cexState).state = cexState ∧
    (handleKeydown cexEnv cexOpts { key := "a" } 1 0 cexState).ret = some true ∧
    (handleKeyup cexEnv cexOpts { key := "a" } 1 0 cexState).state = cexState := by
  have h := spec_C9 cexEnv cexOpts { key := "a" } 1 0 cexState (by decide)
  exact ⟨h.1.1, h.1.2.1, h.2.2.1⟩

/-- Claim C10: `handleKeydown`'s return value is `true` exactly when the event
carries a stale focus-tree id; every event of the current generation —
including events rejected by the ignore filter and events matching no
handler — returns `false`. -/
theorem spec_C10 (env : Env) (opts : Options) (ev : KeyEvent) (focusTreeId componentId : Nat)
    (s : StrategyState) :
    (handleKeydown env opts ev focusTreeId componentId s).ret =
      some (decide (focusTreeId ≠ s.focusTreeId)) := by
  unfold handleKeydown
  by_cases h : focusTreeId = s.focusTreeId
  · have hd : decide (focusTreeId ≠ s.focusTreeId) = false := by simp [h]
    rw [hd, if_neg (by simp [h])]
    split
    · rfl
    · split
      · dsimp only
        split
        · rfl
        · split <;> rfl
      · rfl
  · have hd : decide (focusTreeId ≠ s.focusTreeId) = true := by simp [h]
    rw [hd, if_pos h]

/-! ## Dictionary lemmas -/

theorem alook_nil {κ α : Type} [BEq κ] (j : κ) : alook ([] : List (κ × α)) j = none := rfl

theorem alook_cons {κ α : Type} [BEq κ] (p : κ × α) (l : List (κ × α)) (j : κ) :
    alook (p :: l) j = if p.1 == j then some p.2 else alook l j := by
  by_cases h : p.1 == j
  · simp [alook, List.find?_cons_of_pos, h]
  · simp [alook, List.find?_cons_of_neg, h]

theorem alook_aset_self {κ α : Type} [BEq κ] [LawfulBEq κ] (l : List (κ × α)) (k : κ) (v : α) :
    alook (aset l k v) k = some v := by
  induction l with
  | nil => simp [aset, alook_cons]
  | cons p rest ih =>
    by_cases h : p.1 == k
    · simp [aset, h, alook_cons]
    · simp only [aset, h, Bool.false_eq_true, if_false]
      rw [alook_cons, if_neg (by simp_all), ih]

theorem alook_aset_ne {κ α : Type} [BEq κ] [LawfulBEq κ] (l : List (κ × α)) (k j : κ) (v : α)
    (h : j ≠ k) : alook (aset l k v) j = alook l j := by
  have hkj : ¬(k == j) = true := by
    simp only [beq_iff_eq]
    exact fun he => h he.symm
  induction l with
  | nil =>
    simp only [aset, alook_cons, alook_nil]
    rw [if_neg hkj]
  | cons p rest ih =>
    by_cases hp : p.1 == k
    · have hp1 : p.1 = k := by simpa using hp
      simp only [aset, hp, if_true]
      rw [alook_cons, alook_cons, if_neg hkj, if_neg (by rw [hp1]; exact hkj)]
    · simp only [aset, hp, Bool.false_eq_true, if_false]
      rw [alook_cons, alook_cons, ih]

theorem alook_eq_none_of_not_mem_keys {κ α : Type} [BEq κ] [LawfulBEq κ]
    (l : List (κ × α)) (j : κ) (h : j ∉ l.map Prod.fst) : alook l j = none := by
  induction l with
  | nil => rfl
  | cons p rest ih =>
    rw [alook_cons, if_neg ?_, ih ?_]
    · intro hmem; exact h (by simp [hmem])
    · intro hbeq
      have : p.1 = j := by simpa using hbeq
      exact h (by simp [this])

theorem alook_filter_value {α : Type} (q : α → Bool) (l : List (String × α)) (j : String)
    (hnd : (l.map Prod.fst).Nodup) :
    alook (l.filter (fun p => q p.2)) j =
      match alook l j with
      | none => none
      | some v => if q v then some v else none := by
  induction l with
  | nil => rfl
  | cons p rest ih =>
    have hnd' : (rest.map Prod.fst).Nodup := (List.nodup_cons.mp hnd).2
    have hp1 : p.1 ∉ rest.map Prod.fst := (List.nodup_cons.mp hnd).1
    by_cases hq : q p.2
    · by_cases hj : p.1 == j
      · simp [List.filter_cons, hq, alook_cons, hj]
      · simp only [List.filter_cons, hq, if_true]
        rw [alook_cons, alook_cons, if_neg hj, if_neg hj, ih hnd']
    · by_cases hj : p.1 == j
      · have hpj : p.1 = j := by simpa using hj
        simp only [List.filter_cons, hq, Bool.false_eq_true, if_false]
        rw [alook_cons, if_pos hj]
        have hnone : alook rest j = none :=
          alook_eq_none_of_not_mem_keys rest j (hpj ▸ hp1)
        have : alook (rest.filter (fun p => q p.2)) j = none := by
          rw [ih hnd', hnone]
        rw [this]
        simp [hq]
      · simp only [List.filter_cons, hq, Bool.false_eq_true, if_false]
        rw [alook_cons, if_neg hj, ih hnd']

theorem currentCombination_append_single (l : List KeyCombination) (c : KeyCombination) :
    currentCombinationOfHistory (l ++ [c]) = c := by
  simp [currentCombinationOfHistory, List.getLast?_concat]

/-! ## C4: evolution of a key's `current` bitmap inside one combination -/

/-- The keys of the combination that `_addToCurrentKeyCombination` reads are
the keys of the current combination of the original state. -/
theorem addTo_current_keys (k : String) (e : EventKind) (s : StrategyState) :
    currentCombinationOfHistory (_addToCurrentKeyCombination k e s).keyCombinationHistory =
      { keys := aset (_getCurrentKeyCombination s).keys k
          (match alook (_getCurrentKeyCombination s).keys k with
           | none => { previous := newBitmap, current := newBitmapWith e }
           | some st => { previous := st.current, current := newBitmapWith e }),
        ids := serializeKeys (aset (_getCurrentKeyCombination s).keys k
          (match alook (_getCurrentKeyCombination s).keys k with
           | none => { previous := newBitmap, current := newBitmapWith e }
           | some st => { previous := st.current, current := newBitmapWith e })) } := by
  unfold _addToCurrentKeyCombination _getCurrentKeyCombination
  by_cases hlen : s.keyCombinationHistory.length = 0
  · have hnil : s.keyCombinationHistory = [] := List.length_eq_zero.mp hlen
    rw [hnil]
    simp only [List.length_nil, if_pos rfl]
    rw [currentCombination_append_single]
    rfl
  · rw [if_neg hlen, currentCombination_append_single]

/-- Claim C4 (amended): within one combination's lifetime an event added for
one key never touches any other key's state (so no other key's `current` bits
are cleared), while an event added for the *same* key rotates that key's
`current` bitmap into `previous` and resets `current` to exactly the new
event's bit — `current` bits are cleared by this rotation or by starting a new
combination, not only by the latter. -/
theorem spec_C4 (k j : String) (e : EventKind) (s : StrategyState) (hj : j ≠ k) :
    alook (currentCombinationOfHistory
        (_addToCurrentKeyCombination k e s).keyCombinationHistory).keys j =
      alook (_getCurrentKeyCombination s).keys j ∧
    alook (currentCombinationOfHistory
        (_addToCurrentKeyCombination k e s).keyCombinationHistory).keys k =
      some { previous :=
               (match alook (_getCurrentKeyCombination s).keys k with
                | none => newBitmap
                | some st => st.current),
             current := newBitmapWith e } := by
  rw [addTo_current_keys]
  constructor
  · exact alook_aset_ne _ _ _ _ hj
  · rw [alook_aset_self]
    cases halook : alook (_getCurrentKeyCombination s).keys k <;> simp [halook]

/-- Witness for C4 at a concrete input. -/
theorem spec_C4_witness :
    alook (currentCombinationOfHistory
        (_addToCurrentKeyCombination "a" .keypress cexState).keyCombinationHistory).keys "b" =
      alook (_getCurrentKeyCombination cexState).keys "b" ∧
    alook (currentCombinationOfHistory
        (_addToCurrentKeyCombination "a" .keypress cexState).keyCombinationHistory).keys "a" =
      some { previous := newBitmap, current := newBitmapWith .keypress } := by
  have h := spec_C4 "a" "b" .keypress cexState (by decide)
  exact ⟨h.1, h.2⟩

/-- The state after delivering a keydown for `a` to the concrete component. -/
def c4mid : StrategyState :=
  processEvents cexEnv
    [{ kind := .keydown, event := { key := "a" }, focusTreeId := 0, componentId := 0,
       options := cexOpts }] cexState

/-- The state after the keydown for `a` followed by a keypress for `a`
(the keypress extends the same combination: `a` has no keypress or keyup
recorded yet). -/
def c4fin : StrategyState :=
  processEvents cexEnv
    [{ kind := .keydown, event := { key := "a" }, focusTreeId := 0, componentId := 0,
       options := cexOpts },
     { kind := .keypress, event := { key := "a" }, focusTreeId := 0, componentId := 0,
       options := cexOpts }] cexState

/-- Counterexample to C4 as stated: after a keydown for `a` the keydown bit is
set in `a`'s `current` bitmap; the subsequent keypress for `a` is added to the
very same combination (the history length does not change) and *clears* that
keydown bit — `current` bits are not monotone within a combination's
lifetime. -/
theorem spec_C4_cex :
    ((alook (_getCurrentKeyCombination c4mid).keys "a").map
        (fun st => st.current.get .keydown) = some true) ∧
    c4fin.keyCombinationHistory.length = c4mid.keyCombinationHistory.length ∧
    ((alook (_getCurrentKeyCombination c4fin).keys "a").map
        (fun st => st.current.get .keydown) = some false) := by
  refine ⟨rfl, rfl, rfl⟩

/-! ## C6: what `_startNewKeyCombination` carries into the new combination -/

theorem currentCombination_drop_one (l : List KeyCombination) (h : 2 ≤ l.length) :
    currentCombinationOfHistory (l.drop 1) = currentCombinationOfHistory l := by
  match l, h with
  | a :: b :: rest, _ => simp [currentCombinationOfHistory]

/-- With `longestSequence ≥ 1` (which `_resetRegisteredKeyMapsState`
establishes and registration only increases), the combination
`_startNewKeyCombination` carries keys from is exactly the current (prior)
combination: dropping the oldest history entry never removes the last one. -/
theorem startNew_last_source (s : StrategyState) (hL : 1 ≤ s.longestSequence) :
    currentCombinationOfHistory
      (if s.keyCombinationHistory.length > s.longestSequence then s.keyCombinationHistory.drop 1
       else s.keyCombinationHistory) = _getCurrentKeyCombination s := by
  by_cases hgt : s.keyCombinationHistory.length > s.longestSequence
  · rw [if_pos hgt, currentCombination_drop_one _ (by omega)]
    rfl
  · rw [if_neg hgt]
    rfl

/-- Claim C6: starting a new key combination resets the includes-keyup flag,
drops exactly the oldest entry when the bound is exceeded (and nothing
otherwise), and gives the new combination exactly the keys of the prior
combination whose `current` state has no keyup recorded — keys still held
carry forward with their state, released keys are dropped — plus the
triggering key with a fresh state for the triggering event kind. -/
theorem spec_C6 (k : String) (e : EventKind) (s : StrategyState)
    (hL : 1 ≤ s.longestSequence)
    (hnd : ((_getCurrentKeyCombination s).keys.map Prod.fst).Nodup) :
    (_startNewKeyCombination k e s).keyCombinationIncludesKeyUp = false ∧
    (_startNewKeyCombination k e s).keyCombinationHistory.dropLast =
      (if s.keyCombinationHistory.length > s.longestSequence
       then s.keyCombinationHistory.drop 1 else s.keyCombinationHistory) ∧
    ∀ j, alook (currentCombinationOfHistory
          (_startNewKeyCombination k e s).keyCombinationHistory).keys j =
        (if j = k then some { previous := newBitmap, current := newBitmapWith e }
         else
           match alook (_getCurrentKeyCombination s).keys j with
           | none => none
           | some st => if st.current.get .keyup then none else some st) := by
  refine ⟨rfl, ?_, ?_⟩
  · unfold _startNewKeyCombination
    dsimp only
    rw [List.dropLast_concat]
  · intro j
    unfold _startNewKeyCombination
    dsimp only
    rw [currentCombination_append_single]
    by_cases hj : j = k
    · rw [if_pos hj, hj, alook_aset_self]
    · rw [if_neg hj, alook_aset_ne _ _ _ _ hj]
      unfold _withoutKeyUps
      rw [startNew_last_source s hL]
      have hf := alook_filter_value (fun st => !st.current.get EventKind.keyup)
        (_getCurrentKeyCombination s).keys j hnd
      refine Eq.trans hf ?_
      cases halook : alook (_getCurrentKeyCombination s).keys j with
      | none => rfl
      | some st => by_cases hku : st.current.get EventKind.keyup <;> simp [hku]

/-- The state after keydown `a` then keyup `a`: one combination whose only
key has a keyup recorded in its `current` state. -/
def c6pre : StrategyState :=
  processEvents cexEnv
    [{ kind := .keydown, event := { key := "a" }, focusTreeId := 0, componentId := 0,
       options := cexOpts },
     { kind := .keyup, event := { key := "a" }, focusTreeId := 0, componentId := 0,
       options := cexOpts }] cexState

/-- Witness for C6 at a concrete input: starting a combination with `b`
keydown from the state after keydown `a` then keyup `a` drops the released
`a` and gives `b` a fresh keydown state. -/
theorem spec_C6_witness :
    (_startNewKeyCombination "b" .keydown c6pre).keyCombinationIncludesKeyUp = false ∧
    alook (currentCombinationOfHistory
        (_startNewKeyCombination "b" .keydown c6pre).keyCombinationHistory).keys "b" =
      some { previous := newBitmap, current := newBitmapWith .keydown } ∧
    alook (currentCombinationOfHistory
        (_startNewKeyCombination "b" .keydown c6pre).keyCombinationHistory).keys "a" = none := by
  have h := spec_C6 "b" .keydown c6pre (by decide) (by decide)
  refine ⟨h.1, ?_, ?_⟩
  · rw [h.2.2 "b", if_pos rfl]
  · rw [h.2.2 "a", if_neg (by decide)]
    decide

/-! ## C2 and C5: the first-sighting rule and the keydown decision rule -/

theorem updateHistory_frame (cid : Nat) (s : StrategyState) :
    ((_updateEventPropagationHistory cid s).keyCombinationHistory = s.keyCombinationHistory) ∧
    ((_updateEventPropagationHistory cid s).componentList = s.componentList) ∧
    ((_updateEventPropagationHistory cid s).focusTreeId = s.focusTreeId) ∧
    ((_updateEventPropagationHistory cid s).keypressEventsToSimulate =
      s.keypressEventsToSimulate) ∧
    ((_updateEventPropagationHistory cid s).longestSequence = s.longestSequence) ∧
    ((_updateEventPropagationHistory cid s).keyCombinationIncludesKeyUp =
      s.keyCombinationIncludesKeyUp) := by
  unfold _updateEventPropagationHistory
  split <;> simp

theorem keydownTail_history (env : Env) (opts : Options) (ev : KeyEvent)
    (ftid cid : Nat) (k : String) (s : StrategyState) (evals : Nat)
    (hq : s.keypressEventsToSimulate = [])
    (hsim : env.simulateMissingKeyPressEvents = false) :
    (keydownTail env opts ev ftid cid k s evals).state.keyCombinationHistory =
      s.keyCombinationHistory ∧
    (keydownTail env opts ev ftid cid k s evals).ignoreEvals = evals := by
  unfold keydownTail
  dsimp only
  rw [hsim]
  simp only [Bool.and_false, Bool.false_eq_true, if_false]
  have hq5 : (_callHandlerIfActionNotHandled env k .keydown cid s).state.keypressEventsToSimulate
      = [] := by
    rw [(callHandler_frame env k .keydown cid s).2.2.1, hq]
  rw [hq5]
  split
  · simp only [simulateQueue]
    refine ⟨?_, by simp [simulateQueue]⟩
    rw [(updateHistory_frame cid _).1]
    exact (callHandler_frame env k .keydown cid s).2.2.2.2.1
  · refine ⟨?_, by simp⟩
    rw [(updateHistory_frame cid _).1]
    exact (callHandler_frame env k .keydown cid s).2.2.2.2.1

/-- The behaviour of `handleKeydown` on a first-sighting, non-ignored event:
the ignore predicate is evaluated once and the key-combination bookkeeping is
the keydown decision rule of the source. -/
theorem handleKeydown_main (env : Env) (opts : Options) (ev : KeyEvent) (ftid cid : Nat)
    (s : StrategyState)
    (h1 : ftid = s.focusTreeId) (h2 : s.eventPropagationState.ignoreEvent = false)
    (h3 : opts.ignoreEventsCondition ev = false)
    (h4 : s.eventPropagationState.previousComponentIndex ≥ cid)
    (hq : s.keypressEventsToSimulate = [])
    (hsim : env.simulateMissingKeyPressEvents = false) :
    (handleKeydown env opts ev ftid cid s).state.keyCombinationHistory =
      (if ((alook (_getCurrentKeyCombination s).keys (env.normalizeKeyName ev.key)).isSome
            || s.keyCombinationIncludesKeyUp) then
         (_startNewKeyCombination (env.normalizeKeyName ev.key) .keydown s).keyCombinationHistory
       else
         (_addToCurrentKeyCombination (env.normalizeKeyName ev.key) .keydown
           s).keyCombinationHistory) ∧
    (handleKeydown env opts ev ftid cid s).ignoreEvals = 1 := by
  have hstale : ¬(ftid ≠ s.focusTreeId) := by simp [h1]
  have hig : ¬(_alreadyEstablishedShouldIgnoreEvent s = true) := by
    simp [_alreadyEstablishedShouldIgnoreEvent, h2]
  have hnew : _isNewKeyEvent cid s = true := by
    simp only [_isNewKeyEvent, ge_iff_le, decide_eq_true_eq]
    exact h4
  unfold handleKeydown
  rw [if_neg hstale, if_neg hig, if_pos hnew]
  dsimp only
  have hig2 : ¬(_alreadyEstablishedShouldIgnoreEvent
      (_setIgnoreEventFlag opts ev (_setNewEventParameters ev EventKind.keydown s)) = true) := by
    simp [_alreadyEstablishedShouldIgnoreEvent, _setIgnoreEventFlag, _setNewEventParameters, h3]
  rw [if_neg hig2]
  have hcc : ((alook (_getCurrentKeyCombination
        (_setIgnoreEventFlag opts ev (_setNewEventParameters ev EventKind.keydown s))).keys
        (env.normalizeKeyName ev.key)).isSome
      || (_setIgnoreEventFlag opts ev
            (_setNewEventParameters ev EventKind.keydown s)).keyCombinationIncludesKeyUp)
      = ((alook (_getCurrentKeyCombination s).keys (env.normalizeKeyName ev.key)).isSome
         || s.keyCombinationIncludesKeyUp) := rfl
  rw [hcc]
  split
  · have hqB : (_startNewKeyCombination (env.normalizeKeyName ev.key) EventKind.keydown
        (_setIgnoreEventFlag opts ev
          (_setNewEventParameters ev EventKind.keydown s))).keypressEventsToSimulate = [] := hq
    have ht := keydownTail_history env opts ev ftid cid (env.normalizeKeyName ev.key) _ 1 hqB hsim
    exact ⟨ht.1, ht.2⟩
  · have hqB : (_addToCurrentKeyCombination (env.normalizeKeyName ev.key) EventKind.keydown
        (_setIgnoreEventFlag opts ev
          (_setNewEventParameters ev EventKind.keydown s))).keypressEventsToSimulate = [] := hq
    have ht := keydownTail_history env opts ev ftid cid (env.normalizeKeyName ev.key) _ 1 hqB hsim
    exact ⟨ht.1, ht.2⟩

/-- On a previously-seen event (`previousComponentIndex < componentId`) the
key-combination history is untouched and the ignore predicate is not
evaluated. -/
theorem handleKeydown_not_new (env : Env) (opts : Options) (ev : KeyEvent) (ftid cid : Nat)
    (s : StrategyState)
    (h1 : ftid = s.focusTreeId) (h2 : s.eventPropagationState.ignoreEvent = false)
    (h4 : ¬(s.eventPropagationState.previousComponentIndex ≥ cid))
    (hq : s.keypressEventsToSimulate = [])
    (hsim : env.simulateMissingKeyPressEvents = false) :
    (handleKeydown env opts ev ftid cid s).state.keyCombinationHistory =
      s.keyCombinationHistory ∧
    (handleKeydown env opts ev ftid cid s).ignoreEvals = 0 := by
  have hstale : ¬(ftid ≠ s.focusTreeId) := by simp [h1]
  have hig : ¬(_alreadyEstablishedShouldIgnoreEvent s = true) := by
    simp [_alreadyEstablishedShouldIgnoreEvent, h2]
  have hnew : ¬(_isNewKeyEvent cid s = true) := by
    simpa [_isNewKeyEvent] using h4
  unfold handleKeydown
  rw [if_neg hstale, if_neg hig, if_neg hnew]
  exact keydownTail_history env opts ev ftid cid _ s 0 hq hsim

/-- The number of ignore-predicate evaluations a single `handleKeydown` call
performs, for any state with no pending simulated keypress events and
simulation disabled: exactly one on a current-generation, not-already-ignored,
first-sighting event; zero otherwise. -/
theorem handleKeydown_evals (env : Env) (opts : Options) (ev : KeyEvent) (ftid cid : Nat)
    (s : StrategyState)
    (hq : s.keypressEventsToSimulate = [])
    (hsim : env.simulateMissingKeyPressEvents = false) :
    (handleKeydown env opts ev ftid cid s).ignoreEvals =
      (if ftid = s.focusTreeId ∧ s.eventPropagationState.ignoreEvent = false ∧
          s.eventPropagationState.previousComponentIndex ≥ cid then 1 else 0) := by
  by_cases h1 : ftid = s.focusTreeId
  · by_cases h2 : s.eventPropagationState.ignoreEvent = true
    · rw [if_neg (by simp [h2])]
      unfold handleKeydown
      rw [if_neg (by simp [h1]), if_pos (by simpa [_alreadyEstablishedShouldIgnoreEvent] using h2)]
    · have h2' : s.eventPropagationState.ignoreEvent = false := by
        revert h2; cases s.eventPropagationState.ignoreEvent <;> simp
      by_cases h4 : s.eventPropagationState.previousComponentIndex ≥ cid
      · rw [if_pos ⟨h1, h2', h4⟩]
        unfold handleKeydown
        rw [if_neg (by simp [h1]),
          if_neg (by simp [_alreadyEstablishedShouldIgnoreEvent, h2']),
          if_pos (by simpa [_isNewKeyEvent] using h4)]
        dsimp only
        split
        · rfl
        · split
          · exact (keydownTail_history env opts ev ftid cid (env.normalizeKeyName ev.key)
              (_startNewKeyCombination (env.normalizeKeyName ev.key) EventKind.keydown
                (_setIgnoreEventFlag opts ev (_setNewEventParameters ev EventKind.keydown s)))
              1 hq hsim).2
          · exact (keydownTail_history env opts ev ftid cid (env.normalizeKeyName ev.key)
              (_addToCurrentKeyCombination (env.normalizeKeyName ev.key) EventKind.keydown
                (_setIgnoreEventFlag opts ev (_setNewEventParameters ev EventKind.keydown s)))
              1 hq hsim).2
      · rw [if_neg (by simp [h4])]
        exact (handleKeydown_not_new env opts ev ftid cid s h1 h2' h4 hq hsim).2
  · rw [if_neg (by simp [h1])]
    unfold handleKeydown
    rw [if_pos (by simpa using h1)]

/-- Counterexample to C2 as stated: at `previousScopeIndex = 0` and
`scopeId = 0` the inequality `previousScopeIndex >= scopeId` holds, yet the
code treats the event as a *first sighting*: the ignore filter is evaluated
(once) and the new-combination bookkeeping runs (the history grows from empty
to one combination) — the opposite of "treated as previously-seen when
`previousScopeIndex >= scopeId`". -/
theorem spec_C2_cex :
    cexState.eventPropagationState.previousComponentIndex ≥ 0 ∧
    (handleKeydown cexEnv cexOpts { key := "a" } 0 0 cexState).ignoreEvals = 1 ∧
    cexState.keyCombinationHistory.length = 0 ∧
    (handleKeydown cexEnv cexOpts { key := "a" } 0 0
        cexState).state.keyCombinationHistory.length = 1 := by
  refine ⟨Nat.le_refl 0, rfl, rfl, rfl⟩

/-- Claim C2 (amended): the code's rule is the reverse inequality — an event
is treated as previously-seen (no ignore-filter evaluation, history
untouched) exactly when `previousScopeIndex < scopeId`; when
`previousScopeIndex >= scopeId` it is the first sighting: one ignore-filter
evaluation and (when the filter does not reject the event) the
new-combination bookkeeping of section 4.2. -/
theorem spec_C2 (env : Env) (opts : Options) (ev : KeyEvent) (ftid cid : Nat)
    (s : StrategyState)
    (h1 : ftid = s.focusTreeId) (h2 : s.eventPropagationState.ignoreEvent = false)
    (h3 : opts.ignoreEventsCondition ev = false)
    (hq : s.keypressEventsToSimulate = [])
    (hsim : env.simulateMissingKeyPressEvents = false) :
    ((handleKeydown env opts ev ftid cid s).ignoreEvals =
      if s.eventPropagationState.previousComponentIndex ≥ cid then 1 else 0) ∧
    (s.eventPropagationState.previousComponentIndex < cid →
      (handleKeydown env opts ev ftid cid s).state.keyCombinationHistory =
        s.keyCombinationHistory) ∧
    (s.eventPropagationState.previousComponentIndex ≥ cid →
      (handleKeydown env opts ev ftid cid s).state.keyCombinationHistory =
        (if ((alook (_getCurrentKeyCombination s).keys (env.normalizeKeyName ev.key)).isSome
              || s.keyCombinationIncludesKeyUp) then
           (_startNewKeyCombination (env.normalizeKeyName ev.key) .keydown
             s).keyCombinationHistory
         else
           (_addToCurrentKeyCombination (env.normalizeKeyName ev.key) .keydown
             s).keyCombinationHistory)) := by
  refine ⟨?_, ?_, ?_⟩
  · rw [handleKeydown_evals env opts ev ftid cid s hq hsim]
    by_cases h4 : s.eventPropagationState.previousComponentIndex ≥ cid
    · rw [if_pos h4, if_pos ⟨h1, h2, h4⟩]
    · rw [if_neg h4, if_neg (by simp [h4])]
  · intro h4
    exact (handleKeydown_not_new env opts ev ftid cid s h1 h2 (by omega) hq hsim).1
  · intro h4
    exact (handleKeydown_main env opts ev ftid cid s h1 h2 h3 h4 hq hsim).1

/-- Witness for C2 (amended) at a concrete input: at component 0 with
`previousComponentIndex = 0` the filter runs once and the bookkeeping adds
`"a"` to a fresh combination. -/
theorem spec_C2_witness :
    (handleKeydown cexEnv cexOpts { key := "b" } 0 0 cexState).ignoreEvals = 1 ∧
    (handleKeydown cexEnv cexOpts { key := "b" } 0 0 cexState).state.keyCombinationHistory =
      (_addToCurrentKeyCombination "b" .keydown cexState).keyCombinationHistory := by
  have h := spec_C2 cexEnv cexOpts { key := "b" } 0 0 cexState rfl rfl rfl rfl rfl
  refine ⟨h.1.trans (by decide), ?_⟩
  · rw [h.2.2 (Nat.le_refl 0)]
    rfl

/-- The state reached by keydown `a`, keyup `a`, keyup `a`: the second keyup
starts a new combination whose only key `a` carries a keyup in its `current`
state, and the includes-keyup flag is `false` again. -/
def c5pre : StrategyState :=
  processEvents cexEnv
    [{ kind := .keydown, event := { key := "a" }, focusTreeId := 0, componentId := 0,
       options := cexOpts },
     { kind := .keyup, event := { key := "a" }, focusTreeId := 0, componentId := 0,
       options := cexOpts },
     { kind := .keyup, event := { key := "a" }, focusTreeId := 0, componentId := 0,
       options := cexOpts }] cexState

/-- `c5pre` followed by keydown `b`. -/
def c5post : StrategyState :=
  (handleKeydown cexEnv cexOpts { key := "b" } 0 0 c5pre).state

/-- Counterexample to C5 as stated: in `c5pre` the current combination
*contains a keyup* (`a`'s current state records one) and `b` is not part of
it, so the claimed rule demands a new combination (which would carry only
still-held keys, dropping the released `a`).  The code instead consults the
`keyCombinationIncludesKeyUp` flag — `false` here, because starting the
combination reset it — and *extends* the combination: afterwards `a` (with
its keyup) and `b` coexist in the same combination and the history did not
grow. -/
theorem spec_C5_cex :
    ((_getCurrentKeyCombination c5pre).keys.any (fun p => p.2.current.get .keyup) = true) ∧
    alook (_getCurrentKeyCombination c5pre).keys "b" = none ∧
    c5pre.keyCombinationIncludesKeyUp = false ∧
    c5post.keyCombinationHistory.length = c5pre.keyCombinationHistory.length ∧
    (alook (_getCurrentKeyCombination c5post).keys "a").isSome = true ∧
    (alook (_getCurrentKeyCombination c5post).keys "b").isSome = true := by
  refine ⟨rfl, rfl, rfl, rfl, rfl, rfl⟩

/-- Claim C5 (amended): on a first-sighting keydown the code starts a new key
combination if and only if the key is already part of the current combination
or the `keyCombinationIncludesKeyUp` *flag* is set (the flag is set when a
keyup extends the current combination and cleared whenever a new combination
starts, so it can be `false` even though some key of the combination has a
keyup recorded); otherwise the key extends the current combination. -/
theorem spec_C5 (env : Env) (opts : Options) (ev : KeyEvent) (ftid cid : Nat)
    (s : StrategyState)
    (h1 : ftid = s.focusTreeId) (h2 : s.eventPropagationState.ignoreEvent = false)
    (h3 : opts.ignoreEventsCondition ev = false)
    (h4 : s.eventPropagationState.previousComponentIndex ≥ cid)
    (hq : s.keypressEventsToSimulate = [])
    (hsim : env.simulateMissingKeyPressEvents = false) :
    (handleKeydown env opts ev ftid cid s).state.keyCombinationHistory =
      (if ((alook (_getCurrentKeyCombination s).keys (env.normalizeKeyName ev.key)).isSome
            || s.keyCombinationIncludesKeyUp) then
         (_startNewKeyCombination (env.normalizeKeyName ev.key) .keydown
           s).keyCombinationHistory
       else
         (_addToCurrentKeyCombination (env.normalizeKeyName ev.key) .keydown
           s).keyCombinationHistory) := by
  exact (handleKeydown_main env opts ev ftid cid s h1 h2 h3 h4 hq hsim).1

/-- Witness for C5 (amended) at a concrete input: a second keydown of the
already-pressed `a` starts a new combination. -/
theorem spec_C5_witness :
    (handleKeydown cexEnv cexOpts { key := "a" } 0 0 c4mid).state.keyCombinationHistory =
      (_startNewKeyCombination "a" .keydown c4mid).keyCombinationHistory := by
  have h := spec_C5 cexEnv cexOpts { key := "a" } 0 0 c4mid rfl rfl rfl (Nat.le_refl 0) rfl rfl
  rw [h]
  rfl

/-! ## C3: the history-length bound -/

theorem addTo_length (k : String) (e : EventKind) (s : StrategyState) :
    (_addToCurrentKeyCombination k e s).keyCombinationHistory.length =
      max 1 s.keyCombinationHistory.length := by
  unfold _addToCurrentKeyCombination
  dsimp only
  by_cases h : s.keyCombinationHistory.length = 0
  · rw [if_pos h]
    simp [h]
  · rw [if_neg h]
    simp only [List.length_append, List.length_dropLast, List.length_cons, List.length_nil]
    omega

theorem startNew_length (k : String) (e : EventKind) (s : StrategyState) :
    (_startNewKeyCombination k e s).keyCombinationHistory.length =
      (if s.keyCombinationHistory.length > s.longestSequence
       then s.keyCombinationHistory.length else s.keyCombinationHistory.length + 1) := by
  unfold _startNewKeyCombination
  dsimp only
  by_cases h : s.keyCombinationHistory.length > s.longestSequence
  · rw [if_pos h, if_pos h]
    simp only [List.length_append, List.length_drop, List.length_cons, List.length_nil]
    omega
  · rw [if_neg h, if_neg h]
    simp

/-- `_startNewKeyCombination` only touches the history and the
includes-keyup flag. -/
theorem startNew_frame (k : String) (e : EventKind) (s : StrategyState) :
    ((_startNewKeyCombination k e s).longestSequence = s.longestSequence) ∧
    ((_startNewKeyCombination k e s).componentList = s.componentList) ∧
    ((_startNewKeyCombination k e s).focusTreeId = s.focusTreeId) ∧
    ((_startNewKeyCombination k e s).keypressEventsToSimulate =
      s.keypressEventsToSimulate) := ⟨rfl, rfl, rfl, rfl⟩

/-- `_addToCurrentKeyCombination` only touches the history. -/
theorem addTo_frame (k : String) (e : EventKind) (s : StrategyState) :
    ((_addToCurrentKeyCombination k e s).longestSequence = s.longestSequence) ∧
    ((_addToCurrentKeyCombination k e s).componentList = s.componentList) ∧
    ((_addToCurrentKeyCombination k e s).focusTreeId = s.focusTreeId) ∧
    ((_addToCurrentKeyCombination k e s).keypressEventsToSimulate =
      s.keypressEventsToSimulate) := ⟨rfl, rfl, rfl, rfl⟩

/-- `_setNewEventParameters` and `_setIgnoreEventFlag` only touch
`currentEvent` and the propagation state. -/
theorem setFlagParams_frame (opts : Options) (ev : KeyEvent) (e : EventKind)
    (s : StrategyState) :
    ((_setIgnoreEventFlag opts ev (_setNewEventParameters ev e s)).keyCombinationHistory =
      s.keyCombinationHistory) ∧
    ((_setIgnoreEventFlag opts ev (_setNewEventParameters ev e s)).longestSequence =
      s.longestSequence) := ⟨rfl, rfl⟩

theorem wrapperUpdate_frame (env : Env) (k : String) (e : EventKind) (cid : Nat)
    (s : StrategyState) :
    ((_updateEventPropagationHistory cid
        (_callHandlerIfActionNotHandled env k e cid s).state).keyCombinationHistory =
      s.keyCombinationHistory) ∧
    ((_updateEventPropagationHistory cid
        (_callHandlerIfActionNotHandled env k e cid s).state).longestSequence =
      s.longestSequence) ∧
    ((_updateEventPropagationHistory cid
        (_callHandlerIfActionNotHandled env k e cid s).state).componentList =
      s.componentList) ∧
    ((_updateEventPropagationHistory cid
        (_callHandlerIfActionNotHandled env k e cid s).state).focusTreeId =
      s.focusTreeId) ∧
    ((_updateEventPropagationHistory cid
        (_callHandlerIfActionNotHandled env k e cid s).state).keypressEventsToSimulate =
      s.keypressEventsToSimulate) := by
  have hu := updateHistory_frame cid (_callHandlerIfActionNotHandled env k e cid s).state
  have hc := callHandler_frame env k e cid s
  exact ⟨hu.1.trans hc.2.2.2.2.1, hu.2.2.2.2.1.trans hc.2.2.2.1, hu.2.1.trans hc.2.1,
    hu.2.2.1.trans hc.1, hu.2.2.2.1.trans hc.2.2.1⟩

theorem handleKeypress_preserves (env : Env) (opts : Options) (ev : KeyEvent)
    (ftid cid : Nat) (s : StrategyState) :
    ((handleKeypress env opts ev ftid cid s).state.longestSequence = s.longestSequence) ∧
    ((handleKeypress env opts ev ftid cid s).state.componentList = s.componentList) ∧
    ((handleKeypress env opts ev ftid cid s).state.focusTreeId = s.focusTreeId) ∧
    ((handleKeypress env opts ev ftid cid s).state.keypressEventsToSimulate =
      s.keypressEventsToSimulate) ∧
    (s.keyCombinationHistory.length ≤ s.longestSequence + 1 →
      (handleKeypress env opts ev ftid cid s).state.keyCombinationHistory.length ≤
        s.longestSequence + 1) := by
  unfold handleKeypress
  split
  · exact ⟨rfl, rfl, rfl, rfl, fun h => h⟩
  · split
    · have hu := updateHistory_frame cid s
      exact ⟨hu.2.2.2.2.1, hu.2.1, hu.2.2.1, hu.2.2.2.1, fun h => by rw [hu.1]; exact h⟩
    · split
      · dsimp only
        split
        · have hu := updateHistory_frame cid
            (_setIgnoreEventFlag opts ev (_setNewEventParameters ev EventKind.keypress s))
          exact ⟨hu.2.2.2.2.1, hu.2.1, hu.2.2.1, hu.2.2.2.1, fun h => by rw [hu.1]; exact h⟩
        · split
          · have hw := wrapperUpdate_frame env (env.normalizeKeyName ev.key) .keypress cid
              (_startNewKeyCombination (env.normalizeKeyName ev.key) EventKind.keypress
                (_setIgnoreEventFlag opts ev (_setNewEventParameters ev EventKind.keypress s)))
            refine ⟨hw.2.1, hw.2.2.1, hw.2.2.2.1, hw.2.2.2.2, fun h => ?_⟩
            rw [hw.1, startNew_length, (setFlagParams_frame opts ev EventKind.keypress s).1,
              (setFlagParams_frame opts ev EventKind.keypress s).2]
            split <;> omega
          · have hw := wrapperUpdate_frame env (env.normalizeKeyName ev.key) .keypress cid
              (_addToCurrentKeyCombination (env.normalizeKeyName ev.key) EventKind.keypress
                (_setIgnoreEventFlag opts ev (_setNewEventParameters ev EventKind.keypress s)))
            refine ⟨hw.2.1, hw.2.2.1, hw.2.2.2.1, hw.2.2.2.2, fun h => ?_⟩
            rw [hw.1, addTo_length, (setFlagParams_frame opts ev EventKind.keypress s).1]
            omega
      · have hw := wrapperUpdate_frame env (env.normalizeKeyName ev.key) .keypress cid s
        exact ⟨hw.2.1, hw.2.2.1, hw.2.2.2.1, hw.2.2.2.2, fun h => by rw [hw.1]; exact h⟩

theorem handleKeyup_preserves (env : Env) (opts : Options) (ev : KeyEvent)
    (ftid cid : Nat) (s : StrategyState) :
    ((handleKeyup env opts ev ftid cid s).state.longestSequence = s.longestSequence) ∧
    ((handleKeyup env opts ev ftid cid s).state.componentList = s.componentList) ∧
    ((handleKeyup env opts ev ftid cid s).state.focusTreeId = s.focusTreeId) ∧
    ((handleKeyup env opts ev ftid cid s).state.keypressEventsToSimulate =
      s.keypressEventsToSimulate) ∧
    (s.keyCombinationHistory.length ≤ s.longestSequence + 1 →
      (handleKeyup env opts ev ftid cid s).state.keyCombinationHistory.length ≤
        s.longestSequence + 1) := by
  unfold handleKeyup
  split
  · exact ⟨rfl, rfl, rfl, rfl, fun h => h⟩
  · split
    · have hu := updateHistory_frame cid s
      exact ⟨hu.2.2.2.2.1, hu.2.1, hu.2.2.1, hu.2.2.2.1, fun h => by rw [hu.1]; exact h⟩
    · split
      · dsimp only
        split
        · have hu := updateHistory_frame cid
            (_setIgnoreEventFlag opts ev (_setNewEventParameters ev EventKind.keyup s))
          exact ⟨hu.2.2.2.2.1, hu.2.1, hu.2.2.1, hu.2.2.2.1, fun h => by rw [hu.1]; exact h⟩
        · split
          · have hw := wrapperUpdate_frame env (env.normalizeKeyName ev.key) .keyup cid
              (_startNewKeyCombination (env.normalizeKeyName ev.key) EventKind.keyup
                (_setIgnoreEventFlag opts ev (_setNewEventParameters ev EventKind.keyup s)))
            refine ⟨hw.2.1, hw.2.2.1, hw.2.2.2.1, hw.2.2.2.2, fun h => ?_⟩
            rw [hw.1, startNew_length, (setFlagParams_frame opts ev EventKind.keyup s).1,
              (setFlagParams_frame opts ev EventKind.keyup s).2]
            split <;> omega
          · have hw := wrapperUpdate_frame env (env.normalizeKeyName ev.key) .keyup cid
              { _addToCurrentKeyCombination (env.normalizeKeyName ev.key) EventKind.keyup
                  (_setIgnoreEventFlag opts ev (_setNewEventParameters ev EventKind.keyup s)) with
                keyCombinationIncludesKeyUp := true }
            refine ⟨hw.2.1, hw.2.2.1, hw.2.2.2.1, hw.2.2.2.2, fun h => ?_⟩
            rw [hw.1]
            show (_addToCurrentKeyCombination (env.normalizeKeyName ev.key) EventKind.keyup
              (_setIgnoreEventFlag opts ev (_setNewEventParameters ev EventKind.keyup
                s))).keyCombinationHistory.length ≤ s.longestSequence + 1
            rw [addTo_length, (setFlagParams_frame opts ev EventKind.keyup s).1]
            omega
      · have hw := wrapperUpdate_frame env (env.normalizeKeyName ev.key) .keyup cid s
        exact ⟨hw.2.1, hw.2.2.1, hw.2.2.2.1, hw.2.2.2.2, fun h => by rw [hw.1]; exact h⟩

theorem simulateQueue_preserves (env : Env) (queue : List SimulatedEvent) :
    ∀ acc : StrategyState × List Nat × Nat,
    ((simulateQueue env queue acc).1.longestSequence = acc.1.longestSequence) ∧
    ((simulateQueue env queue acc).1.componentList = acc.1.componentList) ∧
    ((simulateQueue env queue acc).1.focusTreeId = acc.1.focusTreeId) ∧
    (acc.1.keyCombinationHistory.length ≤ acc.1.longestSequence + 1 →
      (simulateQueue env queue acc).1.keyCombinationHistory.length ≤
        acc.1.longestSequence + 1) := by
  induction queue with
  | nil => exact fun acc => ⟨rfl, rfl, rfl, fun h => h⟩
  | cons se rest ih =>
    intro acc
    have hp := handleKeypress_preserves env se.options se.event se.focusTreeId se.componentId
      acc.1
    have ihr := ih ((handleKeypress env se.options se.event se.focusTreeId se.componentId
      acc.1).state, acc.2.1 ++ (handleKeypress env se.options se.event se.focusTreeId
        se.componentId acc.1).invoked, acc.2.2 + (handleKeypress env se.options se.event
        se.focusTreeId se.componentId acc.1).ignoreEvals)
    refine ⟨ihr.1.trans hp.1, ihr.2.1.trans hp.2.1, ihr.2.2.1.trans hp.2.2.1, fun h => ?_⟩
    have h1 := hp.2.2.2.2 h
    have h2 := ihr.2.2.2
    rw [hp.1] at h2
    exact h2 h1

/-- The root-replay step (replay of the queued simulated keypress events,
clearing the queue, then the propagation-history update) preserves
`longestSequence`, the component list, the focus tree id, and the history
bound, for any starting state. -/
theorem rootReplay_frame (env : Env) (cid : Nat) (t : StrategyState) :
    ((_updateEventPropagationHistory cid
        { (simulateQueue env t.keypressEventsToSimulate (t, [], 0)).1 with
          keypressEventsToSimulate := [] }).longestSequence = t.longestSequence) ∧
    ((_updateEventPropagationHistory cid
        { (simulateQueue env t.keypressEventsToSimulate (t, [], 0)).1 with
          keypressEventsToSimulate := [] }).componentList = t.componentList) ∧
    ((_updateEventPropagationHistory cid
        { (simulateQueue env t.keypressEventsToSimulate (t, [], 0)).1 with
          keypressEventsToSimulate := [] }).focusTreeId = t.focusTreeId) ∧
    (t.keyCombinationHistory.length ≤ t.longestSequence + 1 →
      (_updateEventPropagationHistory cid
        { (simulateQueue env t.keypressEventsToSimulate (t, [], 0)).1 with
          keypressEventsToSimulate := [] }).keyCombinationHistory.length ≤
        t.longestSequence + 1) := by
  have hs := simulateQueue_preserves env t.keypressEventsToSimulate (t, [], 0)
  have hu := updateHistory_frame cid
    ({ (simulateQueue env t.keypressEventsToSimulate (t, [], 0)).1 with
       keypressEventsToSimulate := [] } : StrategyState)
  refine ⟨hu.2.2.2.2.1.trans hs.1, hu.2.1.trans hs.2.1, hu.2.2.1.trans hs.2.2.1, fun h => ?_⟩
  rw [hu.1]
  exact hs.2.2.2 h

theorem keydownTail_preserves (env : Env) (opts : Options) (ev : KeyEvent)
    (ftid cid : Nat) (k : String) (s : StrategyState) (evals : Nat) :
    ((keydownTail env opts ev ftid cid k s evals).state.longestSequence =
      s.longestSequence) ∧
    ((keydownTail env opts ev ftid cid k s evals).state.componentList = s.componentList) ∧
    ((keydownTail env opts ev ftid cid k s evals).state.focusTreeId = s.focusTreeId) ∧
    (s.keyCombinationHistory.length ≤ s.longestSequence + 1 →
      (keydownTail env opts ev ftid cid k s evals).state.keyCombinationHistory.length ≤
        s.longestSequence + 1) := by
  unfold keydownTail
  dsimp only
  have hc := callHandler_frame env k .keydown cid s
  split
  · split
    · -- push into the queue, then replay at the root
      have hr := rootReplay_frame env cid
        ({ (_callHandlerIfActionNotHandled env k EventKind.keydown cid s).state with
           keypressEventsToSimulate :=
             (_callHandlerIfActionNotHandled env k EventKind.keydown cid
               s).state.keypressEventsToSimulate ++
               [{ event := ev, focusTreeId := ftid, componentId := cid, options := opts }] } :
          StrategyState)
      refine ⟨hr.1.trans hc.2.2.2.1, hr.2.1.trans hc.2.1, hr.2.2.1.trans hc.1, fun h => ?_⟩
      refine ((hr.2.2.2 ?_).trans (by rw [hc.2.2.2.1]))
      show (_callHandlerIfActionNotHandled env k EventKind.keydown cid
        s).state.keyCombinationHistory.length ≤
        (_callHandlerIfActionNotHandled env k EventKind.keydown cid s).state.longestSequence + 1
      rw [hc.2.2.2.2.1, hc.2.2.2.1]
      exact h
    · dsimp only
      have hu := updateHistory_frame cid
        ({ (_callHandlerIfActionNotHandled env k EventKind.keydown cid s).state with
           keypressEventsToSimulate :=
             (_callHandlerIfActionNotHandled env k EventKind.keydown cid
               s).state.keypressEventsToSimulate ++
               [{ event := ev, focusTreeId := ftid, componentId := cid, options := opts }] } :
          StrategyState)
      refine ⟨hu.2.2.2.2.1.trans hc.2.2.2.1, hu.2.1.trans hc.2.1, hu.2.2.1.trans hc.1,
        fun h => ?_⟩
      rw [hu.1]
      show (_callHandlerIfActionNotHandled env k EventKind.keydown cid
        s).state.keyCombinationHistory.length ≤ s.longestSequence + 1
      rw [hc.2.2.2.2.1]
      exact h
  · split
    · have hr := rootReplay_frame env cid
        (_callHandlerIfActionNotHandled env k EventKind.keydown cid s).state
      refine ⟨hr.1.trans hc.2.2.2.1, hr.2.1.trans hc.2.1, hr.2.2.1.trans hc.1, fun h => ?_⟩
      refine ((hr.2.2.2 ?_).trans (by rw [hc.2.2.2.1]))
      rw [hc.2.2.2.2.1, hc.2.2.2.1]
      exact h
    · dsimp only
      have hu := updateHistory_frame cid
        (_callHandlerIfActionNotHandled env k EventKind.keydown cid s).state
      refine ⟨hu.2.2.2.2.1.trans hc.2.2.2.1, hu.2.1.trans hc.2.1, hu.2.2.1.trans hc.1,
        fun h => ?_⟩
      rw [hu.1, hc.2.2.2.2.1]
      exact h

theorem handleKeydown_preserves (env : Env) (opts : Options) (ev : KeyEvent)
    (ftid cid : Nat) (s : StrategyState) :
    ((handleKeydown env opts ev ftid cid s).state.longestSequence = s.longestSequence) ∧
    ((handleKeydown env opts ev ftid cid s).state.componentList = s.componentList) ∧
    ((handleKeydown env opts ev ftid cid s).state.focusTreeId = s.focusTreeId) ∧
    (s.keyCombinationHistory.length ≤ s.longestSequence + 1 →
      (handleKeydown env opts ev ftid cid s).state.keyCombinationHistory.length ≤
        s.longestSequence + 1) := by
  unfold handleKeydown
  split
  · exact ⟨rfl, rfl, rfl, fun h => h⟩
  · split
    · have hu := updateHistory_frame cid s
      exact ⟨hu.2.2.2.2.1, hu.2.1, hu.2.2.1, fun h => by rw [hu.1]; exact h⟩
    · split
      · dsimp only
        split
        · have hu := updateHistory_frame cid
            (_setIgnoreEventFlag opts ev (_setNewEventParameters ev EventKind.keydown s))
          exact ⟨hu.2.2.2.2.1, hu.2.1, hu.2.2.1, fun h => by rw [hu.1]; exact h⟩
        · split
          · have ht := keydownTail_preserves env opts ev ftid cid (env.normalizeKeyName ev.key)
              (_startNewKeyCombination (env.normalizeKeyName ev.key) EventKind.keydown
                (_setIgnoreEventFlag opts ev (_setNewEventParameters ev EventKind.keydown s))) 1
            refine ⟨ht.1, ht.2.1, ht.2.2.1, fun h => ?_⟩
            refine ht.2.2.2 ?_
            rw [startNew_length, (startNew_frame _ _ _).1,
              (setFlagParams_frame opts ev EventKind.keydown s).1,
              (setFlagParams_frame opts ev EventKind.keydown s).2]
            split <;> omega
          · have ht := keydownTail_preserves env opts ev ftid cid (env.normalizeKeyName ev.key)
              (_addToCurrentKeyCombination (env.normalizeKeyName ev.key) EventKind.keydown
                (_setIgnoreEventFlag opts ev (_setNewEventParameters ev EventKind.keydown s))) 1
            refine ⟨ht.1, ht.2.1, ht.2.2.1, fun h => ?_⟩
            refine ht.2.2.2 ?_
            rw [addTo_length, (addTo_frame _ _ _).1,
              (setFlagParams_frame opts ev EventKind.keydown s).1,
              (setFlagParams_frame opts ev EventKind.keydown s).2]
            omega
      · have ht := keydownTail_preserves env opts ev ftid cid (env.normalizeKeyName ev.key) s 0
        exact ⟨ht.1, ht.2.1, ht.2.2.1, ht.2.2.2⟩

theorem processEvent_preserves (env : Env) (s : StrategyState) (i : EventInput) :
    ((processEvent env s i).longestSequence = s.longestSequence) ∧
    (s.keyCombinationHistory.length ≤ s.longestSequence + 1 →
      (processEvent env s i).keyCombinationHistory.length ≤ s.longestSequence + 1) := by
  unfold processEvent
  cases i.kind
  · have h := handleKeydown_preserves env i.options i.event i.focusTreeId i.componentId s
    exact ⟨h.1, h.2.2.2⟩
  · have h := handleKeypress_preserves env i.options i.event i.focusTreeId i.componentId s
    exact ⟨h.1, h.2.2.2.2⟩
  · have h := handleKeyup_preserves env i.options i.event i.focusTreeId i.componentId s
    exact ⟨h.1, h.2.2.2.2⟩

/-- Claim C3: with a fixed set of registered scopes (no event handler ever
changes `longestSequence`), the key-combination history never grows past
`longestSequence + 1` entries, over any run of keydown/keypress/keyup events;
and whenever `_startNewKeyCombination` runs with the bound already reached,
the entry it drops is exactly the oldest (front) one, the rest shifting
forward with the new combination appended. -/
theorem processEvents_preserves (env : Env) (evs : List EventInput) :
    ∀ s : StrategyState, s.keyCombinationHistory.length ≤ s.longestSequence + 1 →
    ((processEvents env evs s).longestSequence = s.longestSequence) ∧
    ((processEvents env evs s).keyCombinationHistory.length ≤ s.longestSequence + 1) := by
  induction evs with
  | nil => exact fun s h => ⟨rfl, h⟩
  | cons i rest ih =>
    intro s h
    have hp := processEvent_preserves env s i
    have hr := ih (processEvent env s i) (by rw [hp.1]; exact hp.2 h)
    rw [hp.1] at hr
    exact ⟨hr.1, hr.2⟩

theorem spec_C3 (env : Env) (evs : List EventInput) (s : StrategyState)
    (h : s.keyCombinationHistory.length ≤ s.longestSequence + 1) :
    ((processEvents env evs s).longestSequence = s.longestSequence) ∧
    ((processEvents env evs s).keyCombinationHistory.length ≤
      (processEvents env evs s).longestSequence + 1) ∧
    (∀ (k : String) (e : EventKind) (s' : StrategyState),
      s'.keyCombinationHistory.length > s'.longestSequence →
      (_startNewKeyCombination k e s').keyCombinationHistory.dropLast =
        s'.keyCombinationHistory.drop 1 ∧
      (_startNewKeyCombination k e s').keyCombinationHistory.length =
        s'.keyCombinationHistory.length) := by
  have hp := processEvents_preserves env evs s h
  refine ⟨hp.1, by rw [hp.1]; exact hp.2, ?_⟩
  intro k e s' hgt
  constructor
  · unfold _startNewKeyCombination
    dsimp only
    rw [if_pos hgt, List.dropLast_concat]
  · rw [startNew_length, if_pos hgt]

/-- Witness for C3 at a concrete input: five events against a registry with
`longestSequence = 1` leave at most two history entries, and a forced
overflow drops the front entry. -/
theorem spec_C3_witness :
    (processEvents cexEnv
        [{ kind := .keydown, event := { key := "a" }, focusTreeId := 0, componentId := 0,
           options := cexOpts },
         { kind := .keyup, event := { key := "a" }, focusTreeId := 0, componentId := 0,
           options := cexOpts },
         { kind := .keydown, event := { key := "a" }, focusTreeId := 0, componentId := 0,
           options := cexOpts },
         { kind := .keyup, event := { key := "a" }, focusTreeId := 0, componentId := 0,
           options := cexOpts },
         { kind := .keydown, event := { key := "a" }, focusTreeId := 0, componentId := 0,
           options := cexOpts }] cexState).keyCombinationHistory.length ≤
      (processEvents cexEnv
        [{ kind := .keydown, event := { key := "a" }, focusTreeId := 0, componentId := 0,
           options := cexOpts },
         { kind := .keyup, event := { key := "a" }, focusTreeId := 0, componentId := 0,
           options := cexOpts },
         { kind := .keydown, event := { key := "a" }, focusTreeId := 0, componentId := 0,
           options := cexOpts },
         { kind := .keyup, event := { key := "a" }, focusTreeId := 0, componentId := 0,
           options := cexOpts },
         { kind := .keydown, event := { key := "a" }, focusTreeId := 0, componentId := 0,
           options := cexOpts }] cexState).longestSequence + 1 := by
  exact (spec_C3 cexEnv _ cexState (by decide)).2.1

/-! ## C7: the cached size-priority order of a sequence group -/

theorem mem_insertDesc (n x : Nat) (l : List Nat) : x ∈ insertDesc n l ↔ x = n ∨ x ∈ l := by
  induction l with
  | nil => simp [insertDesc]
  | cons m ms ih =>
    by_cases h : m ≤ n
    · simp [insertDesc, h]
    · simp only [insertDesc, if_neg h, List.mem_cons, ih]
      tauto

theorem pairwise_insertDesc (n : Nat) (l : List Nat)
    (h : l.Pairwise (fun a b => b ≤ a)) : (insertDesc n l).Pairwise (fun a b => b ≤ a) := by
  induction l with
  | nil => simp [insertDesc]
  | cons m ms ih =>
    rcases List.pairwise_cons.mp h with ⟨hm, hms⟩
    by_cases hle : m ≤ n
    · simp only [insertDesc, if_pos hle]
      refine List.pairwise_cons.mpr ⟨?_, h⟩
      intro b hb
      rcases List.mem_cons.mp hb with rfl | hb'
      · exact hle
      · exact (hm b hb').trans hle
    · simp only [insertDesc, if_neg hle]
      refine List.pairwise_cons.mpr ⟨?_, ih hms⟩
      intro b hb
      rcases (mem_insertDesc n b ms).mp hb with rfl | hb'
      · omega
      · exact hm b hb'

theorem nodup_insertDesc (n : Nat) (l : List Nat) (hn : n ∉ l) (h : l.Nodup) :
    (insertDesc n l).Nodup := by
  induction l with
  | nil => simp [insertDesc]
  | cons m ms ih =>
    rcases List.nodup_cons.mp h with ⟨hm, hms⟩
    by_cases hle : m ≤ n
    · simp only [insertDesc, if_pos hle]
      exact List.nodup_cons.mpr ⟨hn, h⟩
    · simp only [insertDesc, if_neg hle]
      refine List.nodup_cons.mpr ⟨?_, ih (fun hmem => hn (List.mem_cons_of_mem m hmem)) hms⟩
      intro hmem
      rcases (mem_insertDesc n m ms).mp hmem with heq | hm'
      · exact hn (heq ▸ List.mem_cons_self m ms)
      · exact hm hm'

theorem mem_sortDescNat (l : List Nat) (x : Nat) : x ∈ sortDescNat l ↔ x ∈ l := by
  induction l with
  | nil => simp [sortDescNat]
  | cons m ms ih =>
    simp only [sortDescNat, List.foldr_cons]
    rw [mem_insertDesc]
    simp only [List.mem_cons]
    rw [show List.foldr insertDesc [] ms = sortDescNat ms from rfl, ih]

theorem pairwise_sortDescNat (l : List Nat) :
    (sortDescNat l).Pairwise (fun a b => b ≤ a) := by
  induction l with
  | nil => simp [sortDescNat]
  | cons m ms ih =>
    simp only [sortDescNat, List.foldr_cons]
    exact pairwise_insertDesc m _ ih

theorem nodup_sortDescNat (l : List Nat) (h : l.Nodup) : (sortDescNat l).Nodup := by
  induction l with
  | nil => simp [sortDescNat]
  | cons m ms ih =>
    rcases List.nodup_cons.mp h with ⟨hm, hms⟩
    simp only [sortDescNat, List.foldr_cons]
    refine nodup_insertDesc m _ ?_ (ih hms)
    intro hmem
    exact hm ((mem_sortDescNat ms m).mp hmem)

theorem filter_flatMap_sizes (combs : List (String × Combination)) (sizes : List Nat)
    (hnd : sizes.Nodup) (sz : Nat) :
    (sizes.flatMap (fun t => combs.filter (fun c => c.2.size == t))).filter
        (fun c => c.2.size == sz) =
      (if sz ∈ sizes then combs.filter (fun c => c.2.size == sz) else []) := by
  induction sizes with
  | nil => simp
  | cons t rest ih =>
    rcases List.nodup_cons.mp hnd with ⟨ht, hrest⟩
    simp only [List.flatMap_cons, List.filter_append]
    rw [ih hrest, List.filter_filter]
    by_cases hts : t = sz
    · subst hts
      rw [if_neg ht, List.append_nil, if_pos (List.mem_cons_self t rest)]
      simp
    · have hnil : combs.filter (fun a => (a.2.size == sz) && (a.2.size == t)) = [] := by
        rw [List.filter_eq_nil_iff]
        intro a _
        simp only [Bool.and_eq_true, beq_iff_eq, not_and]
        intro h1 h2
        exact hts (h2.symm.trans h1)
      rw [hnil, List.nil_append]
      by_cases hm : sz ∈ rest
      · rw [if_pos hm, if_pos (List.mem_cons_of_mem t hm)]
      · rw [if_neg hm, if_neg ?_]
        intro hmem
        rcases List.mem_cons.mp hmem with heq | h'
        · exact hts heq.symm
        · exact hm h'

theorem size_mem_sizes (combs : List (String × Combination)) (c : String × Combination)
    (hc : c ∈ combs) :
    c.2.size ∈ sortDescNat ((combs.map (fun c => c.2.size)).dedup) := by
  rw [mem_sortDescNat, List.mem_dedup]
  exact List.mem_map_of_mem _ hc

/-- Equal-size stability: for every size, the sub-list of the ordered
combinations of that size is exactly the filter of the original (encounter)
order — ties keep first-registered order. -/
theorem orderedCombs_filter (combs : List (String × Combination)) (sz : Nat) :
    (orderedCombs combs).filter (fun c => c.2.size == sz) =
      combs.filter (fun c => c.2.size == sz) := by
  unfold orderedCombs
  rw [filter_flatMap_sizes combs _ (nodup_sortDescNat _ (List.nodup_dedup _)) sz]
  by_cases hm : sz ∈ sortDescNat ((combs.map (fun c => c.2.size)).dedup)
  · rw [if_pos hm]
  · rw [if_neg hm]
    symm
    rw [List.filter_eq_nil_iff]
    intro c hc
    simp only [beq_iff_eq]
    intro hsz
    exact hm (hsz ▸ size_mem_sizes combs c hc)

theorem pairwise_of_all_size_eq (l : List (String × Combination)) (t : Nat)
    (h : ∀ a ∈ l, a.2.size = t) : l.Pairwise (fun a b => b.2.size ≤ a.2.size) := by
  induction l with
  | nil => simp
  | cons x xs ih =>
    refine List.pairwise_cons.mpr ⟨?_, ih (fun a ha => h a (List.mem_cons_of_mem x ha))⟩
    intro b hb
    rw [h b (List.mem_cons_of_mem x hb), h x (List.mem_cons_self x xs)]

theorem pairwise_flatMap_buckets (combs : List (String × Combination)) :
    ∀ sizes : List Nat, sizes.Pairwise (fun a b => b ≤ a) →
    (sizes.flatMap (fun t => combs.filter (fun c => c.2.size == t))).Pairwise
      (fun a b => b.2.size ≤ a.2.size) := by
  intro sizes
  induction sizes with
  | nil => simp
  | cons t rest ih =>
    intro hp
    rcases List.pairwise_cons.mp hp with ⟨ht, hrest⟩
    simp only [List.flatMap_cons]
    rw [List.pairwise_append]
    refine ⟨?_, ih hrest, ?_⟩
    · exact pairwise_of_all_size_eq _ t (fun a ha => by simpa using (List.mem_filter.mp ha).2)
    · intro a ha b hb
      have hat : a.2.size = t := by simpa using (List.mem_filter.mp ha).2
      rcases List.mem_flatMap.mp hb with ⟨u, hu, hbu⟩
      have hbu' : b.2.size = u := by simpa using (List.mem_filter.mp hbu).2
      rw [hat, hbu']
      exact ht u hu

/-- Size-priority: the ordered combinations are sorted by descending
combination size. -/
theorem pairwise_orderedCombs (combs : List (String × Combination)) :
    (orderedCombs combs).Pairwise (fun a b => b.2.size ≤ a.2.size) := by
  unfold orderedCombs
  exact pairwise_flatMap_buckets combs _ (pairwise_sortDescNat _)

theorem count_filter_self {α : Type} [DecidableEq α] (p : α → Bool) (a : α) (l : List α)
    (h : p a = true) : List.count a (l.filter p) = List.count a l := by
  induction l with
  | nil => rfl
  | cons x xs ih =>
    by_cases hpx : p x = true
    · rw [List.filter_cons_of_pos hpx]
      simp [List.count_cons, ih]
    · rw [List.filter_cons_of_neg (by simpa using hpx)]
      have hxa : ¬(x == a) = true := by
        intro hbeq
        have hx : x = a := by simpa using hbeq
        exact hpx (hx ▸ h)
      simp [List.count_cons, ih, hxa]

/-- The ordered list is a permutation of the registered combinations. -/
theorem perm_orderedCombs (combs : List (String × Combination)) :
    (orderedCombs combs).Perm combs := by
  rw [List.perm_iff_count]
  intro c
  have h2 := count_filter_self (fun x : String × Combination => x.2.size == c.2.size) c
    (orderedCombs combs) (by simp)
  have h3 := count_filter_self (fun x : String × Combination => x.2.size == c.2.size) c
    combs (by simp)
  refine h2.symm.trans (Eq.trans ?_ h3)
  rw [orderedCombs_filter]

/-- The id list the source stores is the id projection of the ordered
combination list. -/
theorem computeCombinationOrder_eq (combs : List (String × Combination)) :
    computeCombinationOrder combs = (orderedCombs combs).map (fun c => c.2.id) := by
  unfold computeCombinationOrder orderedCombs
  rw [List.map_flatMap]

/-- Claim C7: on a prefix match the candidate combinations are tried in an
order sorted by descending combination size with equal-size ties kept in
first-registered (encounter) order, and this order is computed at most once
per sequence group: `ensureOrder` computes and stores it only when absent,
returns a cached group unchanged, and is idempotent.  The order lists exactly
the registered combinations (a permutation), sorted and stable as claimed. -/
theorem spec_C7 (g : SequenceGroup) (combs : List (String × Combination)) :
    (g.order = none →
      (ensureOrder g).order = some (computeCombinationOrder g.combinations)) ∧
    (∀ o, g.order = some o → ensureOrder g = g) ∧
    ensureOrder (ensureOrder g) = ensureOrder g ∧
    computeCombinationOrder combs = (orderedCombs combs).map (fun c => c.2.id) ∧
    (orderedCombs combs).Pairwise (fun a b => b.2.size ≤ a.2.size) ∧
    (∀ sz, (orderedCombs combs).filter (fun c => c.2.size == sz) =
      combs.filter (fun c => c.2.size == sz)) ∧
    (orderedCombs combs).Perm combs := by
  refine ⟨?_, ?_, ?_, computeCombinationOrder_eq combs, pairwise_orderedCombs combs,
    fun sz => orderedCombs_filter combs sz, perm_orderedCombs combs⟩
  · intro h
    unfold ensureOrder
    rw [h]
    rfl
  · intro o h
    unfold ensureOrder
    rw [h]
    rfl
  · unfold ensureOrder
    by_cases h : g.order.isSome
    · rw [if_pos h, if_pos h]
    · rw [if_neg h]
      simp

/-- A concrete sequence group with three combinations of sizes 1, 2 and 1,
registered in that order, with no cached order. -/
def c7group : SequenceGroup :=
  { combinations :=
      [("a", { pfx := "", sequenceLength := 1, id := "a", keyDictionary := ["a"], size := 1,
               events := [] }),
       ("b+c", { pfx := "", sequenceLength := 1, id := "b+c", keyDictionary := ["b", "c"],
                 size := 2, events := [] }),
       ("d", { pfx := "", sequenceLength := 1, id := "d", keyDictionary := ["d"], size := 1,
               events := [] })],
    order := none }

/-- Witness for C7 at a concrete input: three combinations of sizes 1, 2, 1
are ordered as the size-2 one first, then the two size-1 ones in registration
order, and the order is cached on first computation. -/
theorem spec_C7_witness :
    (ensureOrder c7group).order = some ["b+c", "a", "d"] ∧
    ensureOrder (ensureOrder c7group) = ensureOrder c7group := by
  have h := spec_C7 c7group c7group.combinations
  refine ⟨(h.1 rfl).trans (by decide), h.2.2.1⟩

/-! ## C1 and C8: the per-bubble gating of handlers and of the ignore filter -/

theorem handleKeydown_stale (env : Env) (opts : Options) (ev : KeyEvent) (ftid cid : Nat)
    (s : StrategyState) (h : ftid ≠ s.focusTreeId) :
    handleKeydown env opts ev ftid cid s =
      { state := s, ret := some true, invoked := [], ignoreEvals := 0 } := by
  unfold handleKeydown
  rw [if_pos h]

theorem callHandler_ah_iff (env : Env) (k : String) (e : EventKind) (cid : Nat)
    (s : StrategyState) :
    ((_callHandlerIfActionNotHandled env k e cid s).state.eventPropagationState.actionHandled =
        true ↔
      (s.eventPropagationState.actionHandled = true ∨
       (_callHandlerIfActionNotHandled env k e cid s).invoked ≠ [])) := by
  by_cases hah : s.eventPropagationState.actionHandled = true
  · have h := callHandler_skip_of_handled env k e cid s hah
    rw [h.1]
    simp [hah]
  · have hah' : s.eventPropagationState.actionHandled = false := by
      revert hah; cases s.eventPropagationState.actionHandled <;> simp
    constructor
    · intro h
      right
      intro hi
      rw [callHandler_not_handled_of_empty env k e cid s hah' hi] at h
      simp at h
    · rintro (h | h)
      · exact absurd h hah
      · exact callHandler_handled_of_invoked env k e cid s h

theorem updateHistory_prop (cid : Nat) (X s : StrategyState)
    (hcl : X.componentList = s.componentList) :
    (_updateEventPropagationHistory cid X).eventPropagationState =
      (if _isFocusTreeRoot cid s = true then initialEventPropagationState
       else { X.eventPropagationState with previousComponentIndex := cid }) := by
  unfold _updateEventPropagationHistory
  have hr : _isFocusTreeRoot cid X = _isFocusTreeRoot cid s := by
    unfold _isFocusTreeRoot
    rw [hcl]
  rw [hr]
  split <;> rfl

/-- With no pending simulated events and simulation disabled, `keydownTail` is
exactly: run the gated matcher, then update the propagation history. -/
theorem keydownTail_step (env : Env) (opts : Options) (ev : KeyEvent) (ftid cid : Nat)
    (k : String) (s : StrategyState) (evals : Nat)
    (hq : s.keypressEventsToSimulate = [])
    (hsim : env.simulateMissingKeyPressEvents = false) :
    (keydownTail env opts ev ftid cid k s evals).state =
      _updateEventPropagationHistory cid
        (_callHandlerIfActionNotHandled env k .keydown cid s).state ∧
    (keydownTail env opts ev ftid cid k s evals).invoked =
      (_callHandlerIfActionNotHandled env k .keydown cid s).invoked ∧
    (keydownTail env opts ev ftid cid k s evals).ignoreEvals = evals := by
  unfold keydownTail
  dsimp only
  rw [hsim]
  simp only [Bool.and_false, Bool.false_eq_true, if_false]
  have hq5 : (_callHandlerIfActionNotHandled env k .keydown cid
      s).state.keypressEventsToSimulate = [] := by
    rw [(callHandler_frame env k .keydown cid s).2.2.1, hq]
  rw [hq5]
  split
  · simp only [simulateQueue]
    have hXeta : ({ (_callHandlerIfActionNotHandled env k EventKind.keydown cid s).state with
        keypressEventsToSimulate := [] } : StrategyState) =
        (_callHandlerIfActionNotHandled env k EventKind.keydown cid s).state := by
      rw [← hq5]
    rw [hXeta]
    exact ⟨rfl, by simp, by simp⟩
  · exact ⟨rfl, by simp, by simp⟩

/-- Core facts about `keydownTail` relative to an outer state `s` whose
focus tree, component list and `actionHandled` flag agree with the state
`sB` the tail runs on. -/
theorem keydownStep_core (env : Env) (opts : Options) (ev : KeyEvent) (ftid cid : Nat)
    (k : String) (sB s : StrategyState) (evals : Nat)
    (hq : sB.keypressEventsToSimulate = [])
    (hsim : env.simulateMissingKeyPressEvents = false)
    (hft : sB.focusTreeId = s.focusTreeId)
    (hcl : sB.componentList = s.componentList)
    (hah : sB.eventPropagationState.actionHandled = s.eventPropagationState.actionHandled) :
    ((keydownTail env opts ev ftid cid k sB evals).state.focusTreeId = s.focusTreeId) ∧
    ((keydownTail env opts ev ftid cid k sB evals).state.componentList = s.componentList) ∧
    ((keydownTail env opts ev ftid cid k sB evals).state.keypressEventsToSimulate = []) ∧
    ((keydownTail env opts ev ftid cid k sB evals).invoked.length ≤ 1) ∧
    (s.eventPropagationState.actionHandled = true →
      (keydownTail env opts ev ftid cid k sB evals).invoked = []) ∧
    (¬(_isFocusTreeRoot cid s = true) →
      ((keydownTail env opts ev ftid cid k sB
          evals).state.eventPropagationState.actionHandled = true ↔
        (s.eventPropagationState.actionHandled = true ∨
          (keydownTail env opts ev ftid cid k sB evals).invoked ≠ []))) ∧
    (¬(_isFocusTreeRoot cid s = true) →
      (keydownTail env opts ev ftid cid k sB
        evals).state.eventPropagationState.previousComponentIndex = cid) ∧
    (_isFocusTreeRoot cid s = true →
      (keydownTail env opts ev ftid cid k sB evals).state.eventPropagationState =
        initialEventPropagationState) := by
  have hk := keydownTail_step env opts ev ftid cid k sB evals hq hsim
  have hw := callHandler_frame env k .keydown cid sB
  have hu := updateHistory_frame cid
    (_callHandlerIfActionNotHandled env k .keydown cid sB).state
  have hup := updateHistory_prop cid
    (_callHandlerIfActionNotHandled env k .keydown cid sB).state s (hw.2.1.trans hcl)
  rw [hk.1, hk.2.1]
  refine ⟨hu.2.2.1.trans (hw.1.trans hft), hu.2.1.trans (hw.2.1.trans hcl),
    hu.2.2.2.1.trans (hw.2.2.1.trans hq), callHandler_invoked_le_one env k .keydown cid sB,
    ?_, ?_, ?_, ?_⟩
  · intro h
    exact (callHandler_skip_of_handled env k .keydown cid sB (hah.trans h)).2
  · intro hroot
    rw [hup, if_neg hroot]
    have hiff := callHandler_ah_iff env k .keydown cid sB
    rw [hah] at hiff
    exact hiff
  · intro hroot
    rw [hup, if_neg hroot]
  · intro hroot
    rw [hup, if_pos hroot]

/-- The bubble-step facts about one `handleKeydown` call (no pending
simulated events, simulation disabled): frame preservation, at most one
handler invocation, none at all once `actionHandled` is set, the
`actionHandled` update rule, and the propagation-history update rule. -/
theorem handleKeydown_step (env : Env) (opts : Options) (ev : KeyEvent) (ftid cid : Nat)
    (s : StrategyState)
    (hq : s.keypressEventsToSimulate = [])
    (hsim : env.simulateMissingKeyPressEvents = false) :
    ((handleKeydown env opts ev ftid cid s).state.focusTreeId = s.focusTreeId) ∧
    ((handleKeydown env opts ev ftid cid s).state.componentList = s.componentList) ∧
    ((handleKeydown env opts ev ftid cid s).state.keypressEventsToSimulate = []) ∧
    ((handleKeydown env opts ev ftid cid s).invoked.length ≤ 1) ∧
    (s.eventPropagationState.actionHandled = true →
      (handleKeydown env opts ev ftid cid s).invoked = []) ∧
    (ftid = s.focusTreeId → ¬(_isFocusTreeRoot cid s = true) →
      ((handleKeydown env opts ev ftid cid
          s).state.eventPropagationState.actionHandled = true ↔
        (s.eventPropagationState.actionHandled = true ∨
          (handleKeydown env opts ev ftid cid s).invoked ≠ []))) ∧
    (ftid = s.focusTreeId → ¬(_isFocusTreeRoot cid s = true) →
      (handleKeydown env opts ev ftid cid
        s).state.eventPropagationState.previousComponentIndex = cid) ∧
    (ftid = s.focusTreeId → _isFocusTreeRoot cid s = true →
      (handleKeydown env opts ev ftid cid s).state.eventPropagationState =
        initialEventPropagationState) := by
  by_cases hft : ftid = s.focusTreeId
  · unfold handleKeydown
    rw [if_neg (by simp [hft])]
    split
    · -- cached ignore: only the propagation history is updated
      have hu := updateHistory_frame cid s
      have hup := updateHistory_prop cid s s rfl
      refine ⟨hu.2.2.1, hu.2.1, hu.2.2.2.1.trans hq, by simp, fun _ => rfl, ?_, ?_, ?_⟩
      · intro _ hroot
        rw [hup, if_neg hroot]
        simp
      · intro _ hroot
        rw [hup, if_neg hroot]
      · intro _ hroot
        rw [hup, if_pos hroot]
    · split
      · dsimp only
        split
        · -- fresh sighting rejected by the filter
          have hu := updateHistory_frame cid
            (_setIgnoreEventFlag opts ev (_setNewEventParameters ev EventKind.keydown s))
          have hup := updateHistory_prop cid
            (_setIgnoreEventFlag opts ev (_setNewEventParameters ev EventKind.keydown s)) s rfl
          refine ⟨hu.2.2.1, hu.2.1, hu.2.2.2.1.trans hq, by simp, fun _ => rfl, ?_, ?_, ?_⟩
          · intro _ hroot
            rw [hup, if_neg hroot]
            simp only [ne_eq, not_true_eq_false, or_false]
            rfl
          · intro _ hroot
            rw [hup, if_neg hroot]
          · intro _ hroot
            rw [hup, if_pos hroot]
        · split
          · have hc := keydownStep_core env opts ev ftid cid (env.normalizeKeyName ev.key)
              (_startNewKeyCombination (env.normalizeKeyName ev.key) EventKind.keydown
                (_setIgnoreEventFlag opts ev (_setNewEventParameters ev EventKind.keydown s)))
              s 1 hq hsim rfl rfl rfl
            exact ⟨hc.1, hc.2.1, hc.2.2.1, hc.2.2.2.1, hc.2.2.2.2.1,
              fun _ => hc.2.2.2.2.2.1, fun _ => hc.2.2.2.2.2.2.1, fun _ => hc.2.2.2.2.2.2.2⟩
          · have hc := keydownStep_core env opts ev ftid cid (env.normalizeKeyName ev.key)
              (_addToCurrentKeyCombination (env.normalizeKeyName ev.key) EventKind.keydown
                (_setIgnoreEventFlag opts ev (_setNewEventParameters ev EventKind.keydown s)))
              s 1 hq hsim rfl rfl rfl
            exact ⟨hc.1, hc.2.1, hc.2.2.1, hc.2.2.2.1, hc.2.2.2.2.1,
              fun _ => hc.2.2.2.2.2.1, fun _ => hc.2.2.2.2.2.2.1, fun _ => hc.2.2.2.2.2.2.2⟩
      · have hc := keydownStep_core env opts ev ftid cid (env.normalizeKeyName ev.key) s s 0
          hq hsim rfl rfl rfl
        exact ⟨hc.1, hc.2.1, hc.2.2.1, hc.2.2.2.1, hc.2.2.2.2.1,
          fun _ => hc.2.2.2.2.2.1, fun _ => hc.2.2.2.2.2.2.1, fun _ => hc.2.2.2.2.2.2.2⟩
  · rw [handleKeydown_stale env opts ev ftid cid s hft]
    exact ⟨rfl, rfl, hq, by simp, fun _ => rfl, fun h => absurd h hft, fun h => absurd h hft,
      fun h => absurd h hft⟩

/-- After the first scope of a bubble, every later scope performs no
ignore-predicate evaluation: the propagation history records the previous
scope, so the event is never again a first sighting. -/
theorem bubbleFrom_tail_evals (env : Env) (opts : Options) (ev : KeyEvent) (ftid : Nat) :
    ∀ (fuel cid : Nat) (s : StrategyState),
    ftid = s.focusTreeId → s.keypressEventsToSimulate = [] →
    env.simulateMissingKeyPressEvents = false →
    cid + fuel ≤ s.componentList.length → 1 ≤ cid →
    s.eventPropagationState.previousComponentIndex = cid - 1 →
    (bubbleFrom env opts ev ftid cid fuel s).2.1 = 0 := by
  intro fuel
  induction fuel with
  | zero => intro cid s _ _ _ _ _ _; rfl
  | succ n ih =>
    intro cid s hft hq hsim hlen hcid hprev
    have hs := handleKeydown_step env opts ev ftid cid s hq hsim
    have hev0 : (handleKeydown env opts ev ftid cid s).ignoreEvals = 0 := by
      rw [handleKeydown_evals env opts ev ftid cid s hq hsim, if_neg]
      rintro ⟨_, _, hge⟩
      omega
    simp only [bubbleFrom]
    rw [hev0]
    by_cases hroot : _isFocusTreeRoot cid s = true
    · have hroot' : s.componentList.length - 1 ≤ cid := by
        simpa [_isFocusTreeRoot] using hroot
      have hn0 : n = 0 := by omega
      subst hn0
      rfl
    · have ihr := ih (cid + 1) (handleKeydown env opts ev ftid cid s).state
        (hft.trans hs.1.symm) hs.2.2.1 hsim (by rw [hs.2.1]; omega) (by omega)
        (by rw [hs.2.2.2.2.2.2.1 hft hroot]; omega)
      rw [ihr]

/-- A full keydown bubble from a freshly reset propagation state evaluates
the caller-supplied ignore predicate exactly once: at the innermost scope. -/
theorem bubbleKeydown_evals (env : Env) (opts : Options) (ev : KeyEvent) (ftid : Nat)
    (s : StrategyState)
    (hft : ftid = s.focusTreeId)
    (hprop : s.eventPropagationState = initialEventPropagationState)
    (hq : s.keypressEventsToSimulate = [])
    (hsim : env.simulateMissingKeyPressEvents = false)
    (hn : 1 ≤ s.componentList.length) :
    (bubbleKeydown env opts ev ftid s).2.1 = 1 := by
  unfold bubbleKeydown
  obtain ⟨m, hm⟩ : ∃ m, s.componentList.length = m + 1 :=
    ⟨s.componentList.length - 1, by omega⟩
  rw [hm]
  have hs := handleKeydown_step env opts ev ftid 0 s hq hsim
  have hev1 : (handleKeydown env opts ev ftid 0 s).ignoreEvals = 1 := by
    rw [handleKeydown_evals env opts ev ftid 0 s hq hsim, if_pos]
    exact ⟨hft, by rw [hprop]; rfl, by omega⟩
  simp only [bubbleFrom]
  rw [hev1]
  by_cases hroot : _isFocusTreeRoot 0 s = true
  · have hroot' : s.componentList.length - 1 ≤ 0 := by
      simpa [_isFocusTreeRoot] using hroot
    have hm0 : m = 0 := by omega
    subst hm0
    rfl
  · rw [bubbleFrom_tail_evals env opts ev ftid m 1 (handleKeydown env opts ev ftid 0 s).state
      (hft.trans hs.1.symm) hs.2.2.1 hsim (by rw [hs.2.1]; omega) (by omega)
      (by rw [hs.2.2.2.2.2.2.1 hft hroot])]

/-- Over a whole keydown bubble the `actionHandled` gate admits at most one
handler invocation, and none at all when the flag is already set. -/
theorem bubbleFrom_tail_invoked (env : Env) (opts : Options) (ev : KeyEvent) (ftid : Nat) :
    ∀ (fuel cid : Nat) (s : StrategyState),
    s.keypressEventsToSimulate = [] → env.simulateMissingKeyPressEvents = false →
    cid + fuel ≤ s.componentList.length →
    ((s.eventPropagationState.actionHandled = true →
       (bubbleFrom env opts ev ftid cid fuel s).2.2 = []) ∧
     (bubbleFrom env opts ev ftid cid fuel s).2.2.length ≤ 1) := by
  intro fuel
  induction fuel with
  | zero => intro cid s _ _ _; exact ⟨fun _ => rfl, by simp [bubbleFrom]⟩
  | succ n ih =>
    intro cid s hq hsim hlen
    have hs := handleKeydown_step env opts ev ftid cid s hq hsim
    have ihr := ih (cid + 1) (handleKeydown env opts ev ftid cid s).state hs.2.2.1 hsim
      (by rw [hs.2.1]; omega)
    by_cases hft : ftid = s.focusTreeId
    · by_cases hroot : _isFocusTreeRoot cid s = true
      · have hroot' : s.componentList.length - 1 ≤ cid := by
          simpa [_isFocusTreeRoot] using hroot
        have hn0 : n = 0 := by omega
        subst hn0
        simp only [bubbleFrom]
        constructor
        · intro hah
          rw [hs.2.2.2.2.1 hah]
          rfl
        · simpa using hs.2.2.2.1
      · constructor
        · intro hah
          have hinv := hs.2.2.2.2.1 hah
          have hah' : (handleKeydown env opts ev ftid cid
              s).state.eventPropagationState.actionHandled = true :=
            (hs.2.2.2.2.2.1 hft hroot).mpr (Or.inl hah)
          simp only [bubbleFrom]
          rw [hinv, ihr.1 hah']
          rfl
        · by_cases hah : s.eventPropagationState.actionHandled = true
          · have hinv := hs.2.2.2.2.1 hah
            have hah' : (handleKeydown env opts ev ftid cid
                s).state.eventPropagationState.actionHandled = true :=
              (hs.2.2.2.2.2.1 hft hroot).mpr (Or.inl hah)
            simp only [bubbleFrom]
            rw [hinv, ihr.1 hah']
            simp
          · by_cases hinv : (handleKeydown env opts ev ftid cid s).invoked = []
            · simp only [bubbleFrom]
              rw [hinv]
              simpa using ihr.2
            · have hah' : (handleKeydown env opts ev ftid cid
                  s).state.eventPropagationState.actionHandled = true :=
                (hs.2.2.2.2.2.1 hft hroot).mpr (Or.inr hinv)
              simp only [bubbleFrom]
              rw [ihr.1 hah']
              simpa using hs.2.2.2.1
    · simp only [bubbleFrom]
      rw [handleKeydown_stale env opts ev ftid cid s hft]
      have ihs := ih (cid + 1) s hq hsim (by omega)
      exact ⟨fun hah => by simpa using ihs.1 hah, by simpa using ihs.2⟩

/-- Claim C1: per physical key event, at most one handler fires.  The first
time a scope's handler fires, `actionHandled` is set; while `actionHandled`
is set, `_callHandlerIfActionNotHandled` leaves the state untouched and
invokes nothing; a single call invokes at most one handler; and a full bubble
of a keydown event through every scope (with no pending simulated keypress
events and simulation disabled) invokes at most one handler in total. -/
theorem spec_C1 (env : Env) (opts : Options) (ev : KeyEvent) (keyName : String)
    (e : EventKind) (focusTreeId componentId : Nat) (s : StrategyState) :
    (s.eventPropagationState.actionHandled = true →
      (_callHandlerIfActionNotHandled env keyName e componentId s).state = s ∧
      (_callHandlerIfActionNotHandled env keyName e componentId s).invoked = []) ∧
    ((_callHandlerIfActionNotHandled env keyName e componentId s).invoked ≠ [] →
      (_callHandlerIfActionNotHandled env keyName e componentId
        s).state.eventPropagationState.actionHandled = true) ∧
    ((_callHandlerIfActionNotHandled env keyName e componentId s).invoked.length ≤ 1) ∧
    (s.keypressEventsToSimulate = [] → env.simulateMissingKeyPressEvents = false →
      (bubbleKeydown env opts ev focusTreeId s).2.2.length ≤ 1) := by
  refine ⟨fun h => callHandler_skip_of_handled env keyName e componentId s h,
    fun h => callHandler_handled_of_invoked env keyName e componentId s h,
    callHandler_invoked_le_one env keyName e componentId s,
    fun hq hsim => ?_⟩
  exact (bubbleFrom_tail_invoked env opts ev focusTreeId s.componentList.length 0 s hq hsim
    (by omega)).2

/-- A concrete state whose propagation state already records a handled
action. -/
def c1state : StrategyState :=
  { cexState with
      eventPropagationState :=
        { previousComponentIndex := 0, actionHandled := true, ignoreEvent := false } }

/-- Witness for C1 at concrete inputs: with `actionHandled` already set the
wrapper is a no-op, and a full concrete bubble invokes at most one handler. -/
theorem spec_C1_witness :
    (_callHandlerIfActionNotHandled cexEnv "a" .keydown 0 c1state).state = c1state ∧
    (_callHandlerIfActionNotHandled cexEnv "a" .keydown 0 c1state).invoked = [] ∧
    (bubbleKeydown cexEnv cexOpts { key := "a" } 0 cexState).2.2.length ≤ 1 := by
  have h := spec_C1 cexEnv cexOpts { key := "a" } "a" .keydown 0 0 c1state
  have h2 := spec_C1 cexEnv cexOpts { key := "a" } "a" .keydown 0 0 cexState
  exact ⟨(h.1 rfl).1, (h.1 rfl).2, h2.2.2.2 rfl rfl⟩

/-- Claim C8: the caller-supplied `ignoreEventsCondition` predicate runs at
most once per physical event: a single `handleKeydown` call evaluates it
exactly once on a current-generation, not-already-ignored first sighting and
never otherwise (consulting the cached `ignoreEvent` flag instead), and a
full bubble from a freshly reset propagation state evaluates it exactly
once in total. -/
theorem spec_C8 (env : Env) (opts : Options) (ev : KeyEvent) (focusTreeId componentId : Nat)
    (s : StrategyState)
    (hq : s.keypressEventsToSimulate = [])
    (hsim : env.simulateMissingKeyPressEvents = false) :
    ((handleKeydown env opts ev focusTreeId componentId s).ignoreEvals =
      (if focusTreeId = s.focusTreeId ∧ s.eventPropagationState.ignoreEvent = false ∧
          s.eventPropagationState.previousComponentIndex ≥ componentId then 1 else 0)) ∧
    (focusTreeId = s.focusTreeId → s.eventPropagationState = initialEventPropagationState →
      1 ≤ s.componentList.length →
      (bubbleKeydown env opts ev focusTreeId s).2.1 = 1) :=
  ⟨handleKeydown_evals env opts ev focusTreeId componentId s hq hsim,
   fun hft hprop hn => bubbleKeydown_evals env opts ev focusTreeId s hft hprop hq hsim hn⟩

/-- Witness for C8 at a concrete input: one call on a fresh state evaluates
the predicate once, and the full one-component bubble totals one
evaluation. -/
theorem spec_C8_witness :
    (handleKeydown cexEnv cexOpts { key := "c" } 0 0 cexState).ignoreEvals = 1 ∧
    (bubbleKeydown cexEnv cexOpts { key := "c" } 0 cexState).2.1 = 1 := by
  have h := spec_C8 cexEnv cexOpts { key := "c" } 0 0 cexState rfl rfl
  exact ⟨h.1.trans (by decide), h.2 rfl rfl (by decide)⟩

end ReactHotKeys
